import Mathlib

/-!
# miksms firmware: command parser, payload decoder and WS281x fade engine

A shallow embedding of `firmware/main.c` and `firmware/user.c`.

* `uint8_t` / `uint16_t` variables are natural numbers; every C operation that can
  leave the range is followed by an explicit `% 256` / `% 65536`.
* C arrays are lists; `a[i]` is `a.getD i _` and `a[i] = v` is `a.set i v`.
* C string constants are byte lists that include the terminating NUL.
* File-scope variables become fields of `Fade` (user.c) and `Machine` (main.c).
-/

namespace Miksms

/-! ## firmware/user.c -/

/-- LED_COUNT of user.c. -/
def LED_COUNT : Nat := 24

/-- FADE_DELAY_LOG2 of user.c. -/
def FADE_DELAY_LOG2 : Nat := 4

/-- One WS281x LED, in wire order green, red, blue. -/
structure ws_led_struct where
  g : Nat
  r : Nat
  b : Nat
deriving DecidableEq, Repr, Inhabited

/-- Per-channel fade bookkeeping: 16-bit step and 8-bit fraction. -/
structure bookkeep_struct where
  increment : Nat
  fraction : Nat
deriving DecidableEq, Repr, Inhabited

/-- Target descriptor of one live LED. -/
structure target_struct where
  leds : ws_led_struct
  fade_delay : Nat
  bookkeep_g : bookkeep_struct
  bookkeep_r : bookkeep_struct
  bookkeep_b : bookkeep_struct
deriving DecidableEq, Repr, Inhabited

/-- The file-scope arrays of user.c: `leds[LED_COUNT + 1]` (slot 0 is the staging
slot) and `targets[LED_COUNT]` (entry `i` belongs to LED `i + 1`). -/
structure Fade where
  leds : List ws_led_struct
  targets : List target_struct
deriving DecidableEq, Repr

/-- The table `rainbow[26]`. -/
def rainbow : List ws_led_struct :=
  [ ⟨0, 253, 3⟩, ⟨0, 226, 30⟩, ⟨0, 200, 56⟩, ⟨0, 173, 83⟩, ⟨0, 146, 110⟩,
    ⟨0, 116, 140⟩, ⟨0, 90, 166⟩, ⟨0, 63, 192⟩, ⟨0, 37, 218⟩, ⟨0, 10, 245⟩,
    ⟨39, 0, 217⟩, ⟨93, 0, 163⟩, ⟨145, 0, 111⟩, ⟨184, 0, 71⟩, ⟨210, 0, 45⟩,
    ⟨240, 0, 15⟩, ⟨245, 23, 0⟩, ⟨218, 77, 0⟩, ⟨192, 129, 0⟩, ⟨164, 171, 0⟩,
    ⟨135, 171, 0⟩, ⟨108, 171, 0⟩, ⟨82, 173, 0⟩, ⟨55, 200, 0⟩, ⟨29, 226, 0⟩,
    ⟨0, 255, 0⟩ ]

/-- The table `grayscale[10]`. -/
def grayscale : List ws_led_struct :=
  [ ⟨0, 0, 0⟩, ⟨28, 28, 28⟩, ⟨56, 56, 56⟩, ⟨85, 85, 85⟩, ⟨113, 113, 113⟩,
    ⟨141, 141, 141⟩, ⟨170, 170, 170⟩, ⟨198, 198, 198⟩, ⟨226, 226, 226⟩,
    ⟨255, 255, 255⟩ ]

/-- `calc_increment(current, target, bookkeep)`: the bookkeeping written through
`bookkeep` (both fields are overwritten, so the old value is not an input). -/
def calc_increment (current target : Nat) : bookkeep_struct :=
  let updir : Bool := decide (target > current)
  let distance : Nat :=
    if updir then (target - current) % 65536 else (current - target) % 65536
  let distance := (distance <<< 8) % 65536
  let increment := distance >>> FADE_DELAY_LOG2
  let lsb := (increment &&& 1) % 256
  let increment :=
    if (updir = true ∧ lsb = 0) ∨ (updir = false ∧ lsb ≠ 0) then
      (increment + 65535) % 65536
    else increment
  { increment := increment, fraction := 0 }

/-- The descriptor written by the body of the `if` inside the loop of `set_target` for
LED `index`: the staged color `leds[0]` as target, a full countdown and fresh increments
from the current color `leds[index]`. -/
def new_target (e : Fade) (index : Nat) : target_struct :=
  let s := e.leds.getD 0 default
  let l := e.leds.getD index default
  { leds := s
    fade_delay := 1 <<< FADE_DELAY_LOG2
    bookkeep_g := calc_increment l.g s.g
    bookkeep_r := calc_increment l.r s.r
    bookkeep_b := calc_increment l.b s.b }

/-- The body of the `if` inside the loop of `set_target`; `tpnt = &targets[index - 1]`. -/
def set_target_body (e : Fade) (index : Nat) : Fade :=
  { e with targets := e.targets.set (index - 1) (new_target e index) }

/-- `set_target(ledn)`: `for (index = 1; index <= LED_COUNT; index++)`. -/
def set_target (ledn : Nat) (e : Fade) : Fade :=
  (List.range' 1 LED_COUNT).foldl
    (fun e index => if ledn = 0 ∨ ledn = index then set_target_body e index else e) e

/-- `adjust_led(current, bookkeep)`: the new `*current` and the new bookkeeping. -/
def adjust_led (current : Nat) (bookkeep : bookkeep_struct) : Nat × bookkeep_struct :=
  let updir := (bookkeep.increment &&& 1) % 256
  let change := (bookkeep.fraction + bookkeep.increment) % 65536
  let msb := (change >>> 8) % 256
  let current := if updir ≠ 0 then (current + msb) % 256 else (current + 256 - msb) % 256
  (current, { bookkeep with fraction := change &&& 0xFF })

/-- The body of the `for` loop of `user_service` for one LED and its descriptor. -/
def tick_led (t : target_struct) (l : ws_led_struct) : target_struct × ws_led_struct :=
  if t.fade_delay = 0 then (t, t.leds)
  else
    let g := adjust_led l.g t.bookkeep_g
    let r := adjust_led l.r t.bookkeep_r
    let b := adjust_led l.b t.bookkeep_b
    ({ t with fade_delay := t.fade_delay - 1
              bookkeep_g := g.2, bookkeep_r := r.2, bookkeep_b := b.2 },
     { g := g.1, r := r.1, b := b.1 })

/-- One pass of the `for` loop of `user_service`: `tpnt = &targets[count]`,
`lpnt = &leds[count + 1]`. -/
def service_led (e : Fade) (count : Nat) : Fade :=
  let p := tick_led (e.targets.getD count default) (e.leds.getD (count + 1) default)
  { leds := e.leds.set (count + 1) p.2, targets := e.targets.set count p.1 }

/-- The fade pass of `user_service` when the timer has fired (one `Tick()`):
`for (count = 0; count < LED_COUNT; count++)`. -/
def user_service (e : Fade) : Fade :=
  (List.range LED_COUNT).foldl service_led e

/-- A number of consecutive timer ticks. -/
def ticks : Nat → Fade → Fade
  | 0, e => e
  | k + 1, e => ticks k (user_service e)

/-- The loop `while (ledn)` of `shift_leds()`, by recursion on the C variable `ledn`.
In the pattern `ledn + 1` the C variable has the value `ledn + 1`, so `tpnt` points at
`targets[ledn]` and the call is `set_target(ledn + 1 + 1)`. -/
def shift_loop : Nat → Fade → Fade
  | 0, e => e
  | ledn + 1, e =>
    let e := { e with leds := e.leds.set 0 (e.targets.getD ledn default).leds }
    shift_loop ledn (set_target ((ledn + 1 + 1) % 256) e)

/-- `shift_leds()`. -/
def shift_leds (e : Fade) : Fade := shift_loop (LED_COUNT - 1) e

/-- The character decoding of `user_handle_message` applied to one recovered `val`
with running index `ledn`; returns the engine and the new `ledn`. -/
def decode_char (val ledn : Nat) (e : Fade) : Fade × Nat :=
  if val = 0x3E then (shift_leds e, 1)
  else
    let e :=
      if val ≠ 0x20 then
        if 0x61 ≤ val ∧ val ≤ 0x7A then
          set_target ledn { e with leds := e.leds.set 0 (rainbow.getD (val - 0x61) default) }
        else if 0x30 ≤ val ∧ val ≤ 0x39 then
          set_target ledn { e with leds := e.leds.set 0 (grayscale.getD (val - 0x30) default) }
        else if val = 0x58 then
          set_target 0 { e with leds := e.leds.set 0 (grayscale.getD 0 default) }
        else e
      else e
    (e, (ledn + 1) % 256)

/-- The `while ( len-- && (index <= scratchpad_index) )` loop of `user_handle_message`.
The recursion is on `len`. Besides the engine it returns the list of recovered `val`s
(a trace, not a program variable). A read of `scratchpad[index]` is `getD index 0`. -/
def septet_loop (scratchpad : List Nat) (scratchpad_index : Nat) :
    Nat → Nat → Nat → Nat → Nat → Fade → Fade × List Nat
  | 0, _, _, _, _, e => (e, [])
  | len + 1, index, data, bits, ledn, e =>
    if index ≤ scratchpad_index then
      let result := (data &&& ((1 <<< (7 - bits)) - 1)) % 256
      let fetched :=
        if bits ≠ 0 then
          let data := scratchpad.getD index 0
          ((index + 1) % 256, data >>> bits, (result ||| (data <<< (7 - bits))) % 256)
        else (index, data, result)
      let bits := if bits = 0 then 7 else bits - 1
      let val := fetched.2.2 &&& 0x7F
      let d := decode_char val ledn e
      let rest := septet_loop scratchpad scratchpad_index len fetched.1 fetched.2.1 bits d.2 d.1
      (rest.1, val :: rest.2)
    else (e, [])

/-- Lines 155-161 of user.c: the position of the payload-length byte, computed from
the address length at position 3. -/
def message_index (scratchpad : List Nat) : Nat :=
  let index := scratchpad.getD 3 0
  let index := ((index + 1) >>> 1) % 256
  (index + 7) % 256

/-- `user_handle_message()`: engine after the call and the trace of recovered values. -/
def user_handle_message (scratchpad : List Nat) (scratchpad_index : Nat) (e : Fade) :
    Fade × List Nat :=
  let index := message_index scratchpad
  let len := scratchpad.getD index 0
  let index := (index + 1) % 256
  septet_loop scratchpad scratchpad_index len index 0 7 1 e

/-! ## firmware/main.c -/

/-- `ok_response[] = "OK\r\n"`. -/
def ok_response : List Nat := [0x4F, 0x4B, 0x0D, 0x0A, 0]

/-- `cmgs_request[] = "+CMGS="`. -/
def cmgs_request : List Nat := [0x2B, 0x43, 0x4D, 0x47, 0x53, 0x3D, 0]

/-- `cpin_request[] = "+CPIN?"`. -/
def cpin_request : List Nat := [0x2B, 0x43, 0x50, 0x49, 0x4E, 0x3F, 0]

/-- `cpin_response[] = "+CPIN: READY\r\n"`. -/
def cpin_response : List Nat :=
  [0x2B, 0x43, 0x50, 0x49, 0x4E, 0x3A, 0x20, 0x52, 0x45, 0x41, 0x44, 0x59, 0x0D, 0x0A, 0]

/-- `reset_request[] = "Z9"`. -/
def reset_request : List Nat := [0x5A, 0x39, 0]

/-- The string literal `"> "`. -/
def prompt_string : List Nat := [0x3E, 0x20, 0]

/-- C `strncmp(s1, s2, n)`: difference of the first differing bytes among the first
`n`, comparison stopping after a NUL. -/
def strncmp : List Nat → List Nat → Nat → Int
  | _, _, 0 => 0
  | s1, s2, n + 1 =>
    let c1 := s1.headD 0
    let c2 := s2.headD 0
    if c1 ≠ c2 then (c1 : Int) - (c2 : Int)
    else if c1 = 0 then 0
    else strncmp s1.tail s2.tail n

/-- Parser state `enum` of main.c. -/
inductive State where
  | IDLE | CMD | LF | FIRST | SECOND | MESSAGE
deriving DecidableEq, Repr

/-- The variables of main.c read or written by the parser loop, the watchdog enable
bit, the engine of user.c, and `handled`, a count of the calls of
`user_handle_message` (a trace, not a program variable). `toPC` is
`in_buf[0 .. toPC_count)`. -/
structure Machine where
  state : State
  scratchpad : List Nat
  scratchpad_index : Nat
  nibble : Nat
  have_nibble : Bool
  toPC : List Nat
  SWDTEN : Bool
  fade : Fade
  handled : Nat
deriving DecidableEq, Repr

/-- `send_string(msg)`: copy up to the terminating NUL into `in_buf`. -/
def send_string (msg : List Nat) (m : Machine) : Machine :=
  { m with toPC := m.toPC ++ msg.takeWhile (fun c => c ≠ 0) }

/-- Lines 201-206 of main.c: `nibble <<= 4;` followed by or-ing in the value of an
uppercase hexadecimal digit; any other `keystroke` leaves the low four bits zero. -/
def shift_nibble (nibble keystroke : Nat) : Nat :=
  let nibble := (nibble <<< 4) % 256
  if 0x41 ≤ keystroke ∧ keystroke ≤ 0x46 then nibble ||| (10 + (keystroke - 0x41))
  else if 0x30 ≤ keystroke ∧ keystroke ≤ 0x39 then nibble ||| (keystroke - 0x30)
  else nibble

/-- The body of `while (read_index < fromPC_count)` for one `keystroke`
(main.c lines 120-214). -/
def step (m : Machine) (keystroke : Nat) : Machine :=
  let m :=
    if keystroke = 0x0D then send_string (ok_response.drop 2) m
    else if keystroke = 0x1B then { m with state := State.IDLE }
    else m
  match m.state with
  | State.IDLE => if keystroke = 0x0D then { m with state := State.LF } else m
  | State.LF => { m with state := if keystroke = 0x0A then State.FIRST else State.IDLE }
  | State.CMD =>
    if keystroke = 0x0D then
      if strncmp cmgs_request m.scratchpad 6 = 0 then
        let m := send_string prompt_string m
        { m with state := State.MESSAGE, scratchpad_index := 0, have_nibble := false }
      else
        let m :=
          if strncmp cpin_request m.scratchpad 6 = 0 then send_string cpin_response m
          else if strncmp reset_request m.scratchpad 2 = 0 then { m with SWDTEN := true }
          else m
        let m := send_string ok_response m
        { m with state := State.LF }
    else if m.scratchpad_index < 192 - 1 then
      let m := { m with scratchpad := m.scratchpad.set m.scratchpad_index keystroke
                        scratchpad_index := (m.scratchpad_index + 1) % 256 }
      { m with scratchpad := m.scratchpad.set m.scratchpad_index 0 }
    else m
  | State.FIRST =>
    if keystroke = 0x41 then { m with state := State.SECOND }
    else { m with state := State.IDLE }
  | State.SECOND =>
    if keystroke = 0x54 then
      { m with state := State.CMD, scratchpad_index := 0, scratchpad := m.scratchpad.set 0 0 }
    else { m with state := State.IDLE }
  | State.MESSAGE =>
    if keystroke = 0x1A then
      let m := { m with fade := (user_handle_message m.scratchpad m.scratchpad_index m.fade).1
                        handled := m.handled + 1 }
      let m := send_string ok_response m
      { m with state := State.IDLE }
    else
      let m := { m with nibble := shift_nibble m.nibble keystroke }
      let m :=
        if m.have_nibble = true ∧ m.scratchpad_index < 192 then
          { m with scratchpad := m.scratchpad.set m.scratchpad_index m.nibble
                   scratchpad_index := (m.scratchpad_index + 1) % 256 }
        else m
      { m with have_nibble := !m.have_nibble }

/-- The main loop over a chunk of received bytes: each byte is processed by `step`;
a pending reply makes the loop restart, where it is handed to the USB stack and
`toPC_count` is cleared (lines 107-111 and 216-218) before the next byte. Returns the
final machine and everything handed to the USB stack, in order. -/
def feed : Machine → List Nat → Machine × List Nat
  | m, [] => (m, [])
  | m, b :: bs =>
    let m1 := step m b
    let r := feed { m1 with toPC := [] } bs
    (r.1, m1.toPC ++ r.2)

/-- State at the start of `main`: zero-initialised statics, `state = IDLE`,
`toPC_count = 0`. -/
def init : Machine :=
  { state := State.IDLE
    scratchpad := List.replicate 192 0
    scratchpad_index := 0
    nibble := 0
    have_nibble := false
    toPC := []
    SWDTEN := false
    fade := { leds := List.replicate (LED_COUNT + 1) ⟨0, 0, 0⟩
              targets := List.replicate LED_COUNT ⟨⟨0, 0, 0⟩, 0, ⟨0, 0⟩, ⟨0, 0⟩, ⟨0, 0⟩⟩ }
    handled := 0 }

/-! ## Definitions used to state the claims -/

/-- The part of the command lead-in `CR LF A T` that a parser state stands for. -/
def matched : State → List Nat
  | State.LF => [0x0D]
  | State.FIRST => [0x0D, 0x0A]
  | State.SECOND => [0x0D, 0x0A, 0x41]
  | _ => []

/-- Value of a hexadecimal digit as the specification describes it: `0`-`9` are 0-9,
`A`-`F` are 10-15, every other character is 0. -/
def nib (c : Nat) : Nat :=
  if 0x30 ≤ c ∧ c ≤ 0x39 then c - 0x30
  else if 0x41 ≤ c ∧ c ≤ 0x46 then c - 0x41 + 10
  else 0

/-- Uppercase hexadecimal digit character of a value below 16. -/
def hex_digit (n : Nat) : Nat := if n < 10 then 0x30 + n else 0x41 + (n - 10)

/-- Uppercase two-digit hexadecimal text of a byte sequence. -/
def hex_encode : List Nat → List Nat
  | [] => []
  | b :: bs => hex_digit (b / 16) :: hex_digit (b % 16) :: hex_encode bs

/-- The bit string of a septet sequence read as a number: character `k` occupies
bits `7k .. 7k+6`, least significant bit first. -/
def pack_value : List Nat → Nat
  | [] => 0
  | c :: cs => c + 128 * pack_value cs

/-- Standard GSM 7-bit packing: the `ceil(7 * |s| / 8)` bytes of the bit string. -/
def septet_pack (s : List Nat) : List Nat :=
  (List.range ((7 * s.length + 7) / 8)).map (fun i => pack_value s / 256 ^ i % 256)

/-- Repeated `adjust_led` on one channel. -/
def adjust_iter : Nat → Nat × bookkeep_struct → Nat × bookkeep_struct
  | 0, p => p
  | k + 1, p => adjust_iter k (adjust_led p.1 p.2)

/-- Repeated `tick_led` on one LED and its descriptor. -/
def tick_led_iter : Nat → target_struct × ws_led_struct → target_struct × ws_led_struct
  | 0, p => p
  | k + 1, p => tick_led_iter k (tick_led p.1 p.2)

/-- The three channel values of a color, in memory order. -/
def channels (l : ws_led_struct) : List Nat := [l.g, l.r, l.b]

/-- The buffer invariant of the parser: the array has its 192 bytes, the cursor is at
most 192, and in state CMD the cursor is at most 191 with a NUL at the cursor. -/
def BufferInv (m : Machine) : Prop :=
  m.scratchpad.length = 192 ∧ m.scratchpad_index ≤ 192 ∧
  (m.state = State.CMD →
    m.scratchpad_index ≤ 191 ∧ m.scratchpad.getD m.scratchpad_index 0 = 0)

/-- Applying a sequence of recovered characters in order, from running index `ledn`:
the per-character part of the loop of `user_handle_message`. -/
def interpret : List Nat → Nat → Fade → Fade × Nat
  | [], ledn, e => (e, ledn)
  | v :: vs, ledn, e => interpret vs (decode_char v ledn e).2 (decode_char v ledn e).1

/-- The table color the specification assigns to a letter `a`-`z` or a digit `0`-`9`. -/
def char_color (c : Nat) : ws_led_struct :=
  if 0x61 ≤ c ∧ c ≤ 0x7A then rainbow.getD (c - 0x61) default
  else grayscale.getD (c - 0x30) default

/-- The fetches of the loop of `user_handle_message`, one entry per pass: `some index`
when the pass executes `data = scratchpad[index++]`, `none` when it does not
(`bits == 0`). The loop variables `len`, `index` and `bits` do not depend on the data. -/
def septet_fetches (scratchpad_index : Nat) : Nat → Nat → Nat → List (Option Nat)
  | 0, _, _ => []
  | len + 1, index, bits =>
    if index ≤ scratchpad_index then
      if bits ≠ 0 then
        some index :: septet_fetches scratchpad_index len ((index + 1) % 256) (bits - 1)
      else none :: septet_fetches scratchpad_index len index 7
    else []

/-- Every position of `scratchpad` read by `user_handle_message`: position 3, the
payload-length byte, and the fetches of the loop. -/
def handle_fetches (scratchpad : List Nat) (scratchpad_index : Nat) : List (Option Nat) :=
  some 3 :: some (message_index scratchpad) ::
    septet_fetches scratchpad_index (scratchpad.getD (message_index scratchpad) 0)
      ((message_index scratchpad + 1) % 256) 7

/-- The engine states the firmware can reach: the zeroed start state, closed under
staging a color in `leds[0]`, `set_target`, `shift_leds` and a timer tick. -/
inductive Reachable : Fade → Prop where
  | start : Reachable init.fade
  | stage (e : Fade) (c : ws_led_struct) :
      Reachable e → Reachable { e with leds := e.leds.set 0 c }
  | target (e : Fade) (ledn : Nat) : Reachable e → Reachable (set_target ledn e)
  | shift (e : Fade) : Reachable e → Reachable (shift_leds e)
  | tick (e : Fade) : Reachable e → Reachable (user_service e)

/-- Shape and countdown bound of the engine: 25 color slots, 24 descriptors, every
countdown at most 16. -/
def EngineInv (e : Fade) : Prop :=
  e.leds.length = 25 ∧ e.targets.length = 24 ∧
  ∀ c, c < 24 → (e.targets.getD c default).fade_delay ≤ 16

/-- The variables of the pulse-emission path: the statics of `isr`, the file-scope
pointer `ptr` (as a byte offset from `&leds[0]`), the global interrupt enable bit and
the SPI interrupt flag. -/
structure Strip where
  bit_position : Nat
  byte_count : Nat
  current_byte : Nat
  ptr : Nat
  GIE : Bool
  SSP1IF : Bool
deriving DecidableEq, Repr

/-- The bytes of the array `leds[]` as `ptr` walks them: three bytes per LED in the
order of the fields `g`, `r`, `b`. -/
def led_bytes : List ws_led_struct → List Nat
  | [] => []
  | l :: ls => l.g :: l.r :: l.b :: led_bytes ls

/-- Lines 306-311 of user.c: write the pulse code of the top bit to `SSP1BUF`, shift the
byte and advance `bit_position`. Returns the new state and the code written. -/
def isr_emit (s : Strip) : Strip × Option Nat :=
  ({ s with current_byte := (s.current_byte <<< 1) % 256
            bit_position := (s.bit_position + 1) &&& 0x7 },
   some (if s.current_byte &&& 0x80 ≠ 0 then 0xFF else 0xF0))

/-- One invocation of `isr()`, with `mem` the bytes of `leds[]`; the second component is
the value written to `SSP1BUF`, if any. -/
def isr (mem : List Nat) (s : Strip) : Strip × Option Nat :=
  if s.SSP1IF = true then
    let s := { s with SSP1IF := false }
    if s.bit_position = 0 then
      if LED_COUNT * 3 = s.byte_count then
        ({ s with GIE := false, byte_count := 0 }, none)
      else
        isr_emit { s with current_byte := mem.getD s.ptr 0
                          ptr := s.ptr + 1
                          byte_count := (s.byte_count + 1) % 256 }
    else isr_emit s
  else (s, none)

/-- Lines 239-241 of user.c: `ptr = (uint8_t *)&leds[1]; GIE = 1; SSP1IF = 1;`. -/
def strip_start (s : Strip) : Strip :=
  { s with ptr := 3, GIE := true, SSP1IF := true }

/-- Up to `n` successive invocations of `isr`: the path runs while interrupts are enabled
and the flag is raised; a write to `SSP1BUF` starts a transfer whose completion raises
the flag again. Returns the final state and the codes written, in order. -/
def pulses : Nat → List Nat → Strip → Strip × List Nat
  | 0, _, s => (s, [])
  | n + 1, mem, s =>
    if s.GIE = true ∧ s.SSP1IF = true then
      match (isr mem s).2 with
      | some code =>
        (( pulses n mem { (isr mem s).1 with SSP1IF := true }).1,
          code :: (pulses n mem { (isr mem s).1 with SSP1IF := true }).2)
      | none => pulses n mem (isr mem s).1
    else (s, [])

/-- The pulse code of a data bit: long (0xFF) for 1, short (0xF0) for 0. -/
def pulse_code (bit : Bool) : Nat := if bit then 0xFF else 0xF0

/-- What one pass of the main loop observes of its surroundings: whether the timer has
fired, the answers of the USB stack (`usb_is_configured`, `usb_in_endpoint_halted(2)`,
`usb_in_endpoint_busy(2)`), and the received chunk, if `usb_out_endpoint_has_data(2)`. -/
structure Usb where
  tmr2if : Bool
  configured : Bool
  in_halted : Bool
  in_busy : Bool
  out_data : Option (List Nat)

/-- The variables of `main`: the parser machine, the copy `incoming` of the last chunk
with `read_index` and `fromPC_count`, and two traces that are not program variables:
`sent`, the buffers handed to `usb_send_in_buffer`, and `pending`, the value of
`toPC_count` each time a keystroke is fetched. -/
structure Loop where
  m : Machine
  incoming : List Nat
  read_index : Nat
  fromPC_count : Nat
  sent : List (List Nat)
  pending : List Nat

/-- The loop `while (read_index < fromPC_count)` of main.c, lines 118-219, by recursion
on the number of bytes left; it ends early at `goto start_of_loop` when a reply is
pending. -/
def parse_loop : Nat → Loop → Loop
  | 0, L => L
  | n + 1, L =>
    if L.read_index < L.fromPC_count then
      let keystroke := L.incoming.getD L.read_index 0
      let L := { L with read_index := (L.read_index + 1) % 256
                        pending := L.pending ++ [L.m.toPC.length]
                        m := step L.m keystroke }
      if L.m.toPC.length ≠ 0 then L else parse_loop n L
    else L

/-- Lines 107-111 of main.c: hand a pending reply to the USB stack. -/
def hand_over (L : Loop) : Loop :=
  if L.m.toPC.length ≠ 0 then
    { L with sent := L.sent ++ [L.m.toPC], m := { L.m with toPC := [] } }
  else L

/-- The loop `while (read_index < fromPC_count)` run on the bytes that are left. -/
def parse_pending (L : Loop) : Loop := parse_loop (L.fromPC_count - L.read_index) L

/-- Lines 222-237 of main.c: take the next chunk from the USB stack, if there is one. -/
def fetch_chunk (u : Usb) (L : Loop) : Loop :=
  match u.out_data with
  | none => L
  | some data => { L with fromPC_count := data.length % 256, incoming := data, read_index := 0 }

/-- The call `user_service()` at the head of the loop: a fade pass when the timer has
fired. -/
def service_timer (u : Usb) (L : Loop) : Loop :=
  { L with m := { L.m with fade := if u.tmr2if = true then user_service L.m.fade
                                   else L.m.fade } }

/-- One pass of `for (;;)` in `main`, from `start_of_loop` to the next `continue`,
`goto start_of_loop` or the end of the body. -/
def main_pass (L : Loop) (u : Usb) : Loop :=
  if u.configured = false then service_timer u L
  else if u.in_halted = true ∨ u.in_busy = true then service_timer u L
  else if (parse_pending (hand_over (service_timer u L))).m.toPC.length ≠ 0 then
    parse_pending (hand_over (service_timer u L))
  else fetch_chunk u (parse_pending (hand_over (service_timer u L)))

/-- The state of `main` when the loop is entered. -/
def main_start : Loop :=
  { m := init, incoming := [], read_index := 0, fromPC_count := 0, sent := [], pending := [] }

/-- Any number of passes of the main loop. -/
def main_run (us : List Usb) : Loop := us.foldl main_pass main_start

/-- What holds of the main loop between passes: no keystroke was fetched with a reply
pending, and no buffer handed over or pending is longer than 20 bytes. -/
def LoopInv (L : Loop) : Prop :=
  (∀ x ∈ L.pending, x = 0) ∧ (∀ b ∈ L.sent, b.length ≤ 20) ∧ L.m.toPC.length ≤ 20

/-! ## Parser lemmas -/

/-- The packing agrees with the usual test vector: `hellohello` packs to
E8 32 9B FD 46 97 D9 EC 37. -/
theorem septet_pack_hellohello :
    septet_pack [0x68, 0x65, 0x6C, 0x6C, 0x6F, 0x68, 0x65, 0x6C, 0x6C, 0x6F] =
      [0xE8, 0x32, 0x9B, 0xFD, 0x46, 0x97, 0xD9, 0xEC, 0x37] := by
  decide


theorem set_at_length (pre post : List Nat) (x y : Nat) :
    (pre ++ x :: post).set pre.length y = pre ++ y :: post := by
  induction pre with
  | nil => rfl
  | cons a pre ih => simp [List.set, ih]

theorem step_cmd_collect (m : Machine) (c : Nat) (pre post : List Nat) (y : Nat)
    (hs : m.state = State.CMD) (hsp : m.scratchpad = pre ++ 0 :: y :: post)
    (hi : m.scratchpad_index = pre.length) (hlen : pre.length < 191)
    (hc1 : c ≠ 0x0D) (hc2 : c ≠ 0x1B) :
    step m c = { m with scratchpad := (pre ++ [c]) ++ 0 :: post
                        scratchpad_index := pre.length + 1 } := by
  have h1 : (pre.length + 1) % 256 = pre.length + 1 := by omega
  have h2 : (pre ++ c :: y :: post).set (pre.length + 1) 0 = (pre ++ [c]) ++ 0 :: post := by
    have := set_at_length (pre ++ [c]) post y 0
    simp only [List.length_append, List.length_singleton, List.append_assoc,
      List.singleton_append] at this
    simp [this]
  simp [step, hs, hc1, hc2, hsp, hi, hlen, set_at_length, h1, h2]

theorem feed_append (xs ys : List Nat) : ∀ m : Machine,
    feed m (xs ++ ys) = ((feed (feed m xs).1 ys).1, (feed m xs).2 ++ (feed (feed m xs).1 ys).2) := by
  induction xs with
  | nil => intro m; simp [feed]
  | cons b xs ih => intro m; simp [feed, ih, List.append_assoc]

theorem feed_toPC (bs : List Nat) : ∀ m : Machine, m.toPC = [] → (feed m bs).1.toPC = [] := by
  induction bs with
  | nil => intro m h; simpa [feed] using h
  | cons b bs ih => intro m _; simp only [feed]; exact ih _ rfl

theorem step_scratchpad_length (m : Machine) (c : Nat) :
    (step m c).scratchpad.length = m.scratchpad.length := by
  unfold step send_string
  by_cases h1 : c = 0x0D <;> by_cases h2 : c = 0x1B <;> cases hs : m.state <;>
    simp [h1, h2, hs] <;> (repeat' split) <;> simp

theorem feed_scratchpad_length (bs : List Nat) : ∀ m : Machine,
    (feed m bs).1.scratchpad.length = m.scratchpad.length := by
  induction bs with
  | nil => intro m; rfl
  | cons b bs ih => intro m; simp only [feed]; rw [ih]; exact step_scratchpad_length m b

theorem feed_cmd_collect (cs : List Nat) : ∀ (m : Machine) (pre post : List Nat),
    m.state = State.CMD → m.scratchpad = pre ++ 0 :: post → m.scratchpad_index = pre.length →
    m.toPC = [] → pre.length + cs.length ≤ 191 → cs.length ≤ post.length →
    (∀ c ∈ cs, c ≠ 0x0D ∧ c ≠ 0x1B) →
    feed m cs = ({ m with scratchpad := (pre ++ cs) ++ 0 :: post.drop cs.length
                          scratchpad_index := pre.length + cs.length }, []) := by
  induction cs with
  | nil =>
    intro m pre post _ hsp hi _ _ _ _
    cases m
    simp_all [feed]
  | cons c cs ih =>
    intro m pre post hs hsp hi ht hlen hpost hc
    cases post with
    | nil => simp at hpost
    | cons y post =>
      have hc0 := hc c (List.mem_cons_self _ _)
      have hstep := step_cmd_collect m c pre post y hs hsp hi
        (by simp at hlen; omega) hc0.1 hc0.2
      simp only [feed, hstep]
      have := ih { m with scratchpad := (pre ++ [c]) ++ 0 :: post
                          scratchpad_index := pre.length + 1, toPC := [] }
        (pre ++ [c]) post hs rfl (by simp) rfl (by simp at hlen ⊢; omega)
        (by simp at hpost; omega) (fun x hx => hc x (List.mem_cons_of_mem _ hx))
      rw [this]
      simp [ht, Nat.add_assoc, Nat.add_comm 1]

theorem feed_cmd_full (cs : List Nat) : ∀ (m : Machine),
    m.state = State.CMD → 191 ≤ m.scratchpad_index → m.toPC = [] →
    (∀ c ∈ cs, c ≠ 0x0D ∧ c ≠ 0x1B) → feed m cs = (m, []) := by
  induction cs with
  | nil => intro m _ _ _ _; rfl
  | cons c cs ih =>
    intro m hs hi ht hc
    have hc0 := hc c (List.mem_cons_self _ _)
    have hstep : step m c = m := by
      simp [step, hs, hc0.1, hc0.2, Nat.not_lt.mpr hi]
    have hm : { m with toPC := [] } = m := by cases m; simp_all
    simp only [feed, hstep, hm]
    rw [ih m hs hi ht (fun x hx => hc x (List.mem_cons_of_mem _ hx))]
    simp [ht]

theorem feed_cmd_text (cs : List Nat) (m : Machine) (post : List Nat)
    (hs : m.state = State.CMD) (hsp : m.scratchpad = 0 :: post) (hi : m.scratchpad_index = 0)
    (ht : m.toPC = []) (hpost : post.length = 191)
    (hc : ∀ c ∈ cs, c ≠ 0x0D ∧ c ≠ 0x1B) :
    feed m cs = ({ m with scratchpad := cs.take 191 ++ 0 :: post.drop (cs.take 191).length
                          scratchpad_index := (cs.take 191).length }, []) := by
  have hsplit : cs = cs.take 191 ++ cs.drop 191 := (List.take_append_drop 191 cs).symm
  have h1 := feed_cmd_collect (cs.take 191) m [] post hs (by simpa using hsp) (by simpa using hi) ht
    (by simp) (by simp [hpost]) (fun c hx => hc c (List.mem_of_mem_take hx))
  simp only [List.nil_append, List.length_nil, Nat.zero_add] at h1
  rw [hsplit, feed_append, h1]
  by_cases hlen : cs.length ≤ 191
  · have hd : cs.drop 191 = [] := List.drop_eq_nil_of_le hlen
    simp [hd, feed]
  · have hfull := feed_cmd_full (cs.drop 191)
      { m with scratchpad := cs.take 191 ++ 0 :: post.drop (cs.take 191).length
               scratchpad_index := (cs.take 191).length }
      hs (by simp; omega) ht (fun c hx => hc c (List.mem_of_mem_drop hx))
    simp only [hfull]
    simp

theorem feed_at_line (m : Machine) (cs : List Nat) (hs : m.state = State.IDLE)
    (ht : m.toPC = []) (hl : m.scratchpad.length = 192)
    (hc : ∀ c ∈ cs, c ≠ 0x0D ∧ c ≠ 0x1B) :
    feed m ([0x0D, 0x0A, 0x41, 0x54] ++ cs) =
      ({ m with state := State.CMD
                scratchpad := cs.take 191 ++ 0 :: m.scratchpad.tail.drop (cs.take 191).length
                scratchpad_index := (cs.take 191).length }, [0x0D, 0x0A]) := by
  obtain ⟨x, post, hx⟩ : ∃ x post, m.scratchpad = x :: post := by
    cases h : m.scratchpad with
    | nil => simp [h] at hl
    | cons x post => exact ⟨x, post, rfl⟩
  have hp : post.length = 191 := by simp [hx] at hl; omega
  have h := feed_cmd_text cs
    { m with state := State.CMD, scratchpad := 0 :: post, scratchpad_index := 0, toPC := [] } post
    rfl rfl rfl rfl hp hc
  simp [feed, step, hs, send_string, ok_response, ht, hx, h]

theorem strncmp_eq_zero_begins (pat : List Nat) (hpat : ∀ c ∈ pat, c ≠ 0) :
    ∀ (rest cmd post : List Nat),
      strncmp (pat ++ rest) (cmd ++ 0 :: post) pat.length = 0 → pat <+: cmd := by
  induction pat with
  | nil => intro _ cmd _ _; exact List.nil_prefix
  | cons p ps ih =>
    intro rest cmd post h
    have hp : p ≠ 0 := hpat p (List.mem_cons_self _ _)
    cases cmd with
    | nil =>
      simp [strncmp, hp] at h
    | cons c cs =>
      by_cases hpc : p = c
      · subst hpc
        simp [strncmp, hp] at h
        have := ih (fun x hx => hpat x (List.mem_cons_of_mem _ hx)) rest cs post h
        exact (List.cons_prefix_cons).mpr ⟨rfl, this⟩
      · simp [strncmp, hpc] at h
        omega

theorem step_cmd_cr_plain (m : Machine) (cmd post : List Nat)
    (hs : m.state = State.CMD) (hsp : m.scratchpad = cmd ++ 0 :: post)
    (h1 : ¬ [0x2B, 0x43, 0x4D, 0x47, 0x53, 0x3D] <+: cmd)
    (h2 : ¬ [0x2B, 0x43, 0x50, 0x49, 0x4E, 0x3F] <+: cmd)
    (h3 : ¬ [0x5A, 0x39] <+: cmd) :
    step m 0x0D = { m with state := State.LF
                           toPC := m.toPC ++ [0x0D, 0x0A, 0x4F, 0x4B, 0x0D, 0x0A] } := by
  have e1 : strncmp cmgs_request (cmd ++ 0 :: post) 6 ≠ 0 := fun h =>
    h1 (strncmp_eq_zero_begins [0x2B, 0x43, 0x4D, 0x47, 0x53, 0x3D] (by decide) [0] cmd post h)
  have e2 : strncmp cpin_request (cmd ++ 0 :: post) 6 ≠ 0 := fun h =>
    h2 (strncmp_eq_zero_begins [0x2B, 0x43, 0x50, 0x49, 0x4E, 0x3F] (by decide) [0] cmd post h)
  have e3 : strncmp reset_request (cmd ++ 0 :: post) 2 ≠ 0 := fun h =>
    h3 (strncmp_eq_zero_begins [0x5A, 0x39] (by decide) [0] cmd post h)
  simp [step, hs, hsp, send_string, ok_response, e1, e2, e3]

theorem step_cmd_cr_cmgs (m : Machine) (rest : List Nat)
    (hs : m.state = State.CMD)
    (hsp : m.scratchpad = [0x2B, 0x43, 0x4D, 0x47, 0x53, 0x3D] ++ rest) :
    step m 0x0D = { m with state := State.MESSAGE, scratchpad_index := 0, have_nibble := false
                           toPC := m.toPC ++ [0x0D, 0x0A, 0x3E, 0x20] } := by
  simp [step, hs, hsp, send_string, ok_response, prompt_string, strncmp, cmgs_request]

theorem step_message_other (m : Machine) (c : Nat) (hs : m.state = State.MESSAGE)
    (h1 : c ≠ 0x1A) (h2 : c ≠ 0x1B) :
    (step m c).state = State.MESSAGE ∧
    (step m c).toPC = m.toPC ++ (if c = 0x0D then [0x0D, 0x0A] else []) ∧
    (step m c).handled = m.handled ∧ (step m c).SWDTEN = m.SWDTEN ∧
    (step m c).fade = m.fade := by
  by_cases hc : c = 0x0D
  · subst hc
    simp only [step, send_string, ok_response]
    simp [hs]
    split <;> simp
  · simp only [step, send_string, ok_response]
    simp [hs, hc, h1, h2]
    (repeat' split) <;> simp

theorem feed_message_other (cs : List Nat) : ∀ m : Machine, m.state = State.MESSAGE →
    (∀ c ∈ cs, c ≠ 0x1A ∧ c ≠ 0x1B) →
    (feed m cs).1.state = State.MESSAGE ∧ (feed m cs).1.handled = m.handled ∧
    (feed m cs).1.SWDTEN = m.SWDTEN ∧ (feed m cs).1.fade = m.fade := by
  induction cs with
  | nil => intro m hs _; exact ⟨hs, rfl, rfl, rfl⟩
  | cons c cs ih =>
    intro m hs hc
    have hc0 := hc c (List.mem_cons_self _ _)
    have h := step_message_other m c hs hc0.1 hc0.2
    have := ih { step m c with toPC := [] } h.1 (fun x hx => hc x (List.mem_cons_of_mem _ hx))
    obtain ⟨t1, t2, t3, t4⟩ := this
    simp only [feed]
    exact ⟨t1, t2.trans h.2.2.1, t3.trans h.2.2.2.1, t4.trans h.2.2.2.2⟩

theorem step_message_ctrlz (m : Machine) (hs : m.state = State.MESSAGE) :
    step m 0x1A =
      { m with state := State.IDLE
               fade := (user_handle_message m.scratchpad m.scratchpad_index m.fade).1
               handled := m.handled + 1
               toPC := m.toPC ++ [0x4F, 0x4B, 0x0D, 0x0A] } := by
  simp [step, hs, send_string, ok_response]

theorem step_handled_le (m : Machine) (c : Nat) : m.handled ≤ (step m c).handled := by
  unfold step send_string
  by_cases h1 : c = 0x0D <;> by_cases h2 : c = 0x1B <;> cases hs : m.state <;>
    simp [h1, h2, hs] <;> (repeat' split) <;> simp

theorem feed_handled_le (bs : List Nat) : ∀ m : Machine, m.handled ≤ (feed m bs).1.handled := by
  induction bs with
  | nil => intro m; exact Nat.le_refl _
  | cons b bs ih =>
    intro m
    simp only [feed]
    exact Nat.le_trans (step_handled_le m b) (ih { step m b with toPC := [] })

theorem step_no_collect (m : Machine) (b : Nat) (bs : List Nat)
    (h1 : m.state ≠ State.CMD) (h2 : m.state ≠ State.MESSAGE)
    (hn : ¬ [0x0D, 0x0A, 0x41, 0x54] <:+: matched m.state ++ b :: bs) :
    (step m b).scratchpad = m.scratchpad ∧
    (step m b).scratchpad_index = m.scratchpad_index ∧
    (step m b).handled = m.handled ∧
    (step m b).state ≠ State.CMD ∧ (step m b).state ≠ State.MESSAGE ∧
    (matched (step m b).state ++ bs = matched m.state ++ b :: bs ∨
      (step m b).state = State.IDLE) := by
  by_cases c1 : b = 0x0D <;> by_cases c2 : b = 0x1B <;> by_cases c3 : b = 0x0A <;>
    by_cases c4 : b = 0x41 <;> by_cases c5 : b = 0x54 <;>
    cases hs : m.state <;>
    simp_all [step, send_string, ok_response, matched]
  exact hn (List.prefix_append _ _).isInfix

theorem feed_no_collect (bs : List Nat) : ∀ m : Machine,
    m.state ≠ State.CMD → m.state ≠ State.MESSAGE →
    ¬ [0x0D, 0x0A, 0x41, 0x54] <:+: matched m.state ++ bs →
    (feed m bs).1.scratchpad = m.scratchpad ∧
    (feed m bs).1.scratchpad_index = m.scratchpad_index ∧
    (feed m bs).1.handled = m.handled ∧
    (feed m bs).1.state ≠ State.CMD ∧ (feed m bs).1.state ≠ State.MESSAGE := by
  induction bs with
  | nil => intro m h1 h2 _; exact ⟨rfl, rfl, rfl, h1, h2⟩
  | cons b bs ih =>
    intro m h1 h2 hn
    obtain ⟨e1, e2, e3, e4, e5, e6⟩ := step_no_collect m b bs h1 h2 hn
    have hn2 : ¬ [0x0D, 0x0A, 0x41, 0x54] <:+: matched (step m b).state ++ bs := by
      rcases e6 with h | h
      · rw [h]; exact hn
      · rw [h]
        intro hinf
        apply hn
        have hsuf : bs <:+ matched m.state ++ b :: bs := by
          have := List.suffix_append (matched m.state ++ [b]) bs
          simpa using this
        exact hinf.trans hsuf.isInfix
    obtain ⟨t1, t2, t3, t4, t5⟩ := ih { step m b with toPC := [] } e4 e5 hn2
    simp only [feed]
    exact ⟨t1.trans e1, t2.trans e2, t3.trans e3, t4, t5⟩

theorem feed_lf_line (m : Machine) (cs : List Nat) (hs : m.state = State.LF)
    (ht : m.toPC = []) (hl : m.scratchpad.length = 192)
    (hc : ∀ c ∈ cs, c ≠ 0x0D ∧ c ≠ 0x1B) :
    feed m ([0x0A, 0x41, 0x54] ++ cs) =
      ({ m with state := State.CMD
                scratchpad := cs.take 191 ++ 0 :: m.scratchpad.tail.drop (cs.take 191).length
                scratchpad_index := (cs.take 191).length }, []) := by
  obtain ⟨x, post, hx⟩ : ∃ x post, m.scratchpad = x :: post := by
    cases h : m.scratchpad with
    | nil => simp [h] at hl
    | cons x post => exact ⟨x, post, rfl⟩
  have hp : post.length = 191 := by simp [hx] at hl; omega
  have h := feed_cmd_text cs
    { m with state := State.CMD, scratchpad := 0 :: post, scratchpad_index := 0, toPC := [] } post
    rfl rfl rfl rfl hp hc
  simp [feed, step, hs, ht, hx, h]

theorem step_cmd_cr_cpin (m : Machine) (rest : List Nat)
    (hs : m.state = State.CMD)
    (hsp : m.scratchpad = [0x2B, 0x43, 0x50, 0x49, 0x4E, 0x3F] ++ rest) :
    step m 0x0D =
      { m with state := State.LF
               toPC := m.toPC ++ [0x0D, 0x0A, 0x2B, 0x43, 0x50, 0x49, 0x4E, 0x3A, 0x20, 0x52,
                 0x45, 0x41, 0x44, 0x59, 0x0D, 0x0A, 0x4F, 0x4B, 0x0D, 0x0A] } := by
  simp [step, hs, hsp, send_string, ok_response, cpin_response, strncmp, cmgs_request,
    cpin_request]

theorem step_cmd_cr_other (m : Machine) (hs : m.state = State.CMD)
    (h : strncmp cmgs_request m.scratchpad 6 ≠ 0) :
    (step m 0x0D).state = State.LF ∧ (step m 0x0D).scratchpad = m.scratchpad := by
  simp only [step, send_string]
  simp [hs, h]
  (repeat' split) <;> simp

/-- The reply to the final CR of `CR LF A T + C P I N ? CR`, for a machine with nothing
pending and a 192-byte buffer, in terms of its state. -/
theorem reply_to_cpin_line (m : Machine) (ht : m.toPC = []) (hl : m.scratchpad.length = 192) :
    (step (feed m [0x0D, 0x0A, 0x41, 0x54, 0x2B, 0x43, 0x50, 0x49, 0x4E, 0x3F]).1 0x0D).toPC =
      [0x0D, 0x0A, 0x2B, 0x43, 0x50, 0x49, 0x4E, 0x3A, 0x20, 0x52, 0x45, 0x41, 0x44, 0x59,
       0x0D, 0x0A, 0x4F, 0x4B, 0x0D, 0x0A] ↔
    (m.state = State.IDLE ∨
      (m.state = State.CMD ∧ strncmp cmgs_request m.scratchpad 6 ≠ 0)) := by
  have hc : ∀ c ∈ [0x2B, 0x43, 0x50, 0x49, 0x4E, 0x3F], c ≠ 0x0D ∧ c ≠ 0x1B := by decide
  cases hs : m.state with
  | IDLE =>
    have hline := feed_at_line m [0x2B, 0x43, 0x50, 0x49, 0x4E, 0x3F] hs ht hl hc
    simp only [List.cons_append, List.nil_append] at hline
    rw [hline, step_cmd_cr_cpin _ _ rfl rfl]
    simp [ht]
  | LF => simp [feed, step, hs, ht, send_string, ok_response]
  | FIRST => simp [feed, step, hs, ht, send_string, ok_response]
  | SECOND => simp [feed, step, hs, ht, send_string, ok_response]
  | MESSAGE =>
    have h := feed_message_other [0x0D, 0x0A, 0x41, 0x54, 0x2B, 0x43, 0x50, 0x49, 0x4E, 0x3F]
      m hs (by decide)
    have hp := feed_toPC [0x0D, 0x0A, 0x41, 0x54, 0x2B, 0x43, 0x50, 0x49, 0x4E, 0x3F] m ht
    have := step_message_other _ 0x0D h.1 (by decide) (by decide)
    rw [this.2.1, hp]
    simp
  | CMD =>
    have e1 : (feed m [0x0D]).1 = { step m 0x0D with toPC := [] } := by simp only [feed]
    have e : (feed m ([0x0D] ++ [0x0A, 0x41, 0x54, 0x2B, 0x43, 0x50, 0x49, 0x4E, 0x3F])).1 =
        (feed { step m 0x0D with toPC := [] }
          [0x0A, 0x41, 0x54, 0x2B, 0x43, 0x50, 0x49, 0x4E, 0x3F]).1 := by
      rw [feed_append, e1]
    simp only [List.singleton_append] at e
    rw [e]
    by_cases hcm : strncmp cmgs_request m.scratchpad 6 = 0
    · have s1 : (step m 0x0D).state = State.MESSAGE := by
        simp [step, hs, hcm, send_string]
      have h := feed_message_other [0x0A, 0x41, 0x54, 0x2B, 0x43, 0x50, 0x49, 0x4E, 0x3F]
        { step m 0x0D with toPC := [] } s1 (by decide)
      have hp := feed_toPC [0x0A, 0x41, 0x54, 0x2B, 0x43, 0x50, 0x49, 0x4E, 0x3F]
        { step m 0x0D with toPC := [] } rfl
      have := step_message_other _ 0x0D h.1 (by decide) (by decide)
      rw [this.2.1, hp]
      simp [hcm]
    · have s1 := step_cmd_cr_other m hs hcm
      have hline := feed_lf_line { step m 0x0D with toPC := [] }
        [0x2B, 0x43, 0x50, 0x49, 0x4E, 0x3F] s1.1 rfl (by simpa [s1.2] using hl) hc
      simp only [List.cons_append, List.nil_append] at hline
      rw [hline, step_cmd_cr_cpin _ _ rfl rfl]
      simp [hcm]

/-! ### Hexadecimal payload collection -/

theorem nibble_pair (x a b : Nat) (ha : a < 16) (hb : b < 16) :
    ((((x <<< 4) % 256) ||| a) <<< 4) % 256 ||| b = 16 * a + b := by
  have h1 : (x <<< 4) % 256 = 2 ^ 4 * (x % 16) := by
    rw [Nat.shiftLeft_eq]; omega
  rw [h1, ← Nat.mul_add_lt_is_or (by simpa using ha), Nat.shiftLeft_eq]
  have h2 : (2 ^ 4 * (x % 16) + a) * 2 ^ 4 % 256 = 2 ^ 4 * a := by omega
  rw [h2, ← Nat.mul_add_lt_is_or (by simpa using hb)]

theorem nib_lt (c : Nat) : nib c < 16 := by
  unfold nib; split
  · omega
  · split <;> omega

theorem shift_nibble_eq (n c : Nat) : shift_nibble n c = (n <<< 4) % 256 ||| nib c := by
  unfold shift_nibble nib
  by_cases a1 : 0x41 ≤ c ∧ c ≤ 0x46
  · have a2 : ¬ (0x30 ≤ c ∧ c ≤ 0x39) := by omega
    simp only [a1, a2, and_self, if_true, if_false]
    rw [Nat.add_comm]
  · by_cases a2 : 0x30 ≤ c ∧ c ≤ 0x39
    · simp only [a1, a2, and_self, if_true, if_false]
    · simp only [a1, a2, if_false]; simp

theorem step_message_high (m : Machine) (c : Nat) (hs : m.state = State.MESSAGE)
    (hh : m.have_nibble = false) (h1 : c ≠ 0x1A) (h2 : c ≠ 0x1B) :
    step m c = { m with nibble := shift_nibble m.nibble c, have_nibble := true
                        toPC := m.toPC ++ (if c = 0x0D then [0x0D, 0x0A] else []) } := by
  by_cases hc : c = 0x0D
  · subst hc; simp [step, send_string, ok_response, hs, hh]
  · simp [step, hs, hh, hc, h1, h2]

theorem step_message_low (m : Machine) (c : Nat) (hs : m.state = State.MESSAGE)
    (hh : m.have_nibble = true) (hi : m.scratchpad_index < 192) (h1 : c ≠ 0x1A) (h2 : c ≠ 0x1B) :
    step m c = { m with nibble := shift_nibble m.nibble c, have_nibble := false
                        scratchpad := m.scratchpad.set m.scratchpad_index
                          (shift_nibble m.nibble c)
                        scratchpad_index := m.scratchpad_index + 1
                        toPC := m.toPC ++ (if c = 0x0D then [0x0D, 0x0A] else []) } := by
  have hmod : (m.scratchpad_index + 1) % 256 = m.scratchpad_index + 1 := by omega
  by_cases hc : c = 0x0D
  · subst hc; simp [step, send_string, ok_response, hs, hh, hi, hmod]
  · simp [step, hs, hh, hi, hc, h1, h2, hmod]

theorem feed_message_pair (m : Machine) (c0 c1 : Nat) (hs : m.state = State.MESSAGE)
    (hh : m.have_nibble = false) (hi : m.scratchpad_index < 192)
    (h0 : c0 ≠ 0x1A ∧ c0 ≠ 0x1B) (h1 : c1 ≠ 0x1A ∧ c1 ≠ 0x1B) :
    (feed m [c0, c1]).1 =
      { m with nibble := 16 * nib c0 + nib c1
               scratchpad := m.scratchpad.set m.scratchpad_index (16 * nib c0 + nib c1)
               scratchpad_index := m.scratchpad_index + 1
               toPC := [] } := by
  have e : shift_nibble (shift_nibble m.nibble c0) c1 = 16 * nib c0 + nib c1 := by
    rw [shift_nibble_eq, shift_nibble_eq]
    exact nibble_pair _ _ _ (nib_lt c0) (nib_lt c1)
  have e1 := step_message_high m c0 hs hh h0.1 h0.2
  have e2 := step_message_low
    { m with nibble := shift_nibble m.nibble c0, have_nibble := true, toPC := [] }
    c1 hs rfl hi h1.1 h1.2
  simp only [e] at e2
  simp only [feed, e1]
  simp only [e2]
  simp [hh]

theorem feed_hex_pairs (k : Nat) : ∀ (cs : List Nat) (m : Machine),
    m.state = State.MESSAGE → m.have_nibble = false →
    m.scratchpad_index + k ≤ 192 → m.scratchpad.length = 192 → cs.length = 2 * k →
    (∀ c ∈ cs, c ≠ 0x1A ∧ c ≠ 0x1B) →
    (feed m cs).1.state = State.MESSAGE ∧ (feed m cs).1.have_nibble = false ∧
    (feed m cs).1.scratchpad_index = m.scratchpad_index + k ∧
    (feed m cs).1.scratchpad.length = 192 ∧
    (∀ i < m.scratchpad_index, (feed m cs).1.scratchpad.getD i 0 = m.scratchpad.getD i 0) ∧
    (∀ i < k, (feed m cs).1.scratchpad.getD (m.scratchpad_index + i) 0 =
      16 * nib (cs.getD (2 * i) 0) + nib (cs.getD (2 * i + 1) 0)) := by
  induction k with
  | zero =>
    intro cs m hs hh _ hl hlen _
    have : cs = [] := List.length_eq_zero.mp (by simpa using hlen)
    subst this
    exact ⟨hs, hh, rfl, hl, fun _ _ => rfl, fun i hi => absurd hi (Nat.not_lt_zero i)⟩
  | succ k ih =>
    intro cs m hs hh hi hl hlen hc
    match cs, hlen, hc with
    | [], hlen, _ => simp at hlen
    | [_], hlen, _ => simp at hlen; omega
    | c0 :: c1 :: rest, hlen, hc =>
      have h0 := hc c0 (by simp)
      have h1 := hc c1 (by simp)
      have hp := feed_message_pair m c0 c1 hs hh (by omega) h0 h1
      have happ : feed m (c0 :: c1 :: rest) =
          ((feed (feed m [c0, c1]).1 rest).1,
            (feed m [c0, c1]).2 ++ (feed (feed m [c0, c1]).1 rest).2) :=
        feed_append [c0, c1] rest m
      rw [happ, hp]
      obtain ⟨t1, t2, t3, t4, t5, t6⟩ := ih rest
        { m with nibble := 16 * nib c0 + nib c1
                 scratchpad := m.scratchpad.set m.scratchpad_index (16 * nib c0 + nib c1)
                 scratchpad_index := m.scratchpad_index + 1
                 toPC := [] }
        hs hh (by simp only; omega) (by simp [hl]) (by simp at hlen ⊢; omega)
        (fun x hx => hc x (by simp [hx]))
      simp only at t3 t5 t6 ⊢
      refine ⟨t1, t2, by omega, t4, ?_, ?_⟩
      · intro i hi2
        rw [t5 i (by omega)]
        simp [List.getD_eq_getElem?_getD, List.getElem?_set_ne (Nat.ne_of_gt hi2)]
      · intro i hi2
        cases i with
        | zero =>
          have h5 := t5 m.scratchpad_index (Nat.lt_succ_self _)
          have : m.scratchpad_index < m.scratchpad.length := by omega
          simp only [Nat.add_zero, Nat.mul_zero, Nat.zero_add]
          rw [h5]
          simp [List.getD_eq_getElem?_getD, this]
        | succ i =>
          have := t6 i (by omega)
          rw [show m.scratchpad_index + (i + 1) = m.scratchpad_index + 1 + i by omega, this]
          rw [show 2 * (i + 1) = 2 * i + 1 + 1 by omega]
          simp [List.getD_cons_succ]

theorem getD_hex_encode (bytes : List Nat) : ∀ i, i < bytes.length →
    (hex_encode bytes).getD (2 * i) 0 = hex_digit (bytes.getD i 0 / 16) ∧
    (hex_encode bytes).getD (2 * i + 1) 0 = hex_digit (bytes.getD i 0 % 16) := by
  induction bytes with
  | nil => intro i hi; simp at hi
  | cons b bs ih =>
    intro i hi
    cases i with
    | zero => simp [hex_encode]
    | succ i =>
      have := ih i (by simpa using hi)
      rw [show 2 * (i + 1) = 2 * i + 1 + 1 by omega]
      simpa [hex_encode, List.getD_cons_succ] using this

theorem length_hex_encode (bytes : List Nat) : (hex_encode bytes).length = 2 * bytes.length := by
  induction bytes with
  | nil => rfl
  | cons b bs ih => simp [hex_encode, ih]; omega

theorem hex_encode_plain (bytes : List Nat) :
    ∀ c ∈ hex_encode bytes, c ≠ 0x1A ∧ c ≠ 0x1B := by
  induction bytes with
  | nil => intro c hc; simp [hex_encode] at hc
  | cons b bs ih =>
    intro c hc
    simp only [hex_encode, List.mem_cons] at hc
    rcases hc with h | h | h
    · subst h; unfold hex_digit; split <;> omega
    · subst h; unfold hex_digit; split <;> omega
    · exact ih c h

theorem nib_hex_digit (n : Nat) (h : n < 16) : nib (hex_digit n) = n := by
  unfold nib hex_digit
  by_cases h10 : n < 10
  · simp only [h10, if_true]
    rw [if_pos (by omega)]; omega
  · simp only [h10, if_false]
    rw [if_neg (by omega), if_pos (by omega)]; omega

/-! ### Septet unpacking -/

theorem and_mask (x r : Nat) : x &&& ((1 <<< r) - 1) = x % 2 ^ r := by
  rw [Nat.one_shiftLeft]; exact Nat.and_pow_two_sub_one_eq_mod x r

theorem or_shift (a B r : Nat) (ha : a < 2 ^ r) : a ||| (B <<< r) = a + 2 ^ r * B := by
  rw [Nat.shiftLeft_eq, Nat.lor_comm, Nat.mul_comm, ← Nat.mul_add_lt_is_or ha, Nat.add_comm]

theorem septet_val (data B T r : Nat) (hr : r < 7) (hd : data % 2 ^ r = T % 2 ^ r)
    (hB : B = T / 2 ^ r % 256) :
    ((data &&& ((1 <<< r) - 1)) % 256 ||| (B <<< r)) % 256 &&& 0x7F = T % 128 := by
  have h7 : ∀ x : Nat, x &&& 0x7F = x % 128 := fun x => Nat.and_pow_two_sub_one_eq_mod x 7
  have hlt : (data % 2 ^ r) % 256 < 2 ^ r :=
    Nat.lt_of_le_of_lt (Nat.mod_le _ _) (Nat.mod_lt _ (Nat.pos_pow_of_pos r (by omega)))
  rw [and_mask, or_shift _ _ _ hlt, h7, hd, hB]
  interval_cases r <;> simp only [Nat.reducePow] <;> omega

theorem septet_carry (B T r : Nat) (hr : r < 7) (hB : B = T / 2 ^ r % 256) :
    (B >>> (7 - r)) % 2 ^ (r + 1) = (T / 128) % 2 ^ (r + 1) := by
  rw [Nat.shiftRight_eq_div_pow, hB]
  interval_cases r <;> simp only [Nat.reducePow, Nat.reduceAdd, Nat.reduceSub] <;> omega

theorem septet_val_last (data T : Nat) (hd : data % 2 ^ 7 = T % 2 ^ 7) :
    (data &&& ((1 <<< 7) - 1)) % 256 &&& 0x7F = T % 128 := by
  have h7 : ∀ x : Nat, x &&& 0x7F = x % 128 := fun x => Nat.and_pow_two_sub_one_eq_mod x 7
  rw [and_mask, h7, hd]
  simp only [Nat.reducePow]; omega

theorem stream_shift (T r j : Nat) :
    T / 2 ^ r / 256 ^ (j + 1) % 256 = T / 128 / 2 ^ (r + 1) / 256 ^ j % 256 := by
  have e1 : T / 2 ^ r / 256 ^ (j + 1) = T / (2 ^ r * 256) / 256 ^ j := by
    rw [Nat.pow_succ, Nat.mul_comm (256 ^ j) 256, ← Nat.div_div_eq_div_mul,
      Nat.div_div_eq_div_mul T]
  have e2 : T / 128 / 2 ^ (r + 1) = T / (2 ^ r * 256) := by
    rw [Nat.div_div_eq_div_mul, Nat.pow_succ]
    congr 1; omega
  rw [e1, e2]

theorem septet_loop_trace (sp : List Nat) (idx : Nat) (hidx : idx ≤ 255) :
    ∀ (t : List Nat) (r index data ledn : Nat) (e : Fade),
      (∀ c ∈ t, c < 128) → r ≤ 7 → data % 2 ^ r = pack_value t % 2 ^ r →
      (∀ j, j < (7 * t.length + 7 - r) / 8 →
        sp.getD (index + j) 0 = pack_value t / 2 ^ r / 256 ^ j % 256) →
      index + (7 * t.length + 7 - r) / 8 ≤ idx →
      (septet_loop sp idx t.length index data (7 - r) ledn e).2 = t := by
  intro t
  induction t with
  | nil => intro r index data ledn e _ _ _ _ _; rfl
  | cons c t ih =>
    intro r index data ledn e hc hr hd hmem hfit
    have hc0 : c < 128 := hc c (List.mem_cons_self _ _)
    have hct : ∀ x ∈ t, x < 128 := fun x hx => hc x (List.mem_cons_of_mem _ hx)
    have hT : pack_value (c :: t) = c + 128 * pack_value t := rfl
    have hdiv : pack_value (c :: t) / 128 = pack_value t := by rw [hT]; omega
    have hmod : pack_value (c :: t) % 128 = c := by rw [hT]; omega
    have hle : index ≤ idx := by omega
    simp only [List.length_cons] at hmem hfit ⊢
    by_cases h7 : r = 7
    · subst h7
      have hv := septet_val_last data _ hd
      rw [hmod] at hv
      simp only [septet_loop, hle, if_true, Nat.sub_self, ne_eq, not_true_eq_false, if_false, hv]
      have := ih 0 index data (decode_char c ledn e).2 (decode_char c ledn e).1 hct
        (by omega) (by simp [Nat.mod_one])
        (fun j hj => by
          have := hmem j (by omega)
          rw [this, ← hdiv]
          simp)
        (by omega)
      simp only [Nat.sub_zero] at this
      rw [this]
    · have hr6 : r < 7 := by omega
      have hb : 7 - r ≠ 0 := by omega
      have hrr : 7 - (7 - r) = r := by omega
      have hB := hmem 0 (by omega)
      simp only [Nat.add_zero, Nat.pow_zero, Nat.div_one] at hB
      have hv := septet_val data _ _ r hr6 hd hB
      rw [hmod] at hv
      have hcarry := septet_carry _ _ r hr6 hB
      rw [hdiv] at hcarry
      have hidx1 : (index + 1) % 256 = index + 1 := by omega
      simp only [septet_loop, hle, if_true, hb, ne_eq, not_false_eq_true, hrr, hv, hidx1]
      have := ih (r + 1) (index + 1) (sp.getD index 0 >>> (7 - r))
        (decode_char c ledn e).2 (decode_char c ledn e).1 hct (by omega) hcarry
        (fun j hj => by
          have := hmem (j + 1) (by omega)
          rw [show index + 1 + j = index + (j + 1) by omega, this, stream_shift, hdiv])
        (by omega)
      rw [show 7 - (r + 1) = 7 - r - 1 by omega] at this
      simp only [if_false]
      rw [this]

theorem getD_septet_pack (s : List Nat) (j : Nat) (hj : j < (septet_pack s).length) :
    (septet_pack s).getD j 0 = pack_value s / 256 ^ j % 256 := by
  unfold septet_pack at hj ⊢
  simp only [List.length_map, List.length_range] at hj
  rw [List.getD_eq_getElem _ _ (by simpa using hj)]
  simp

/-! ## Fade engine lemmas -/

theorem foldl_single (f : Fade → Nat → Fade) (n : Nat) (hn : n ≠ 0) :
    ∀ (k s : Nat) (e : Fade),
      (List.range' s k).foldl (fun e index => if n = 0 ∨ n = index then f e index else e) e =
        if s ≤ n ∧ n < s + k then f e n else e := by
  intro k
  induction k with
  | zero =>
    intro s e
    have : ¬ (s ≤ n ∧ n < s + 0) := by omega
    rw [if_neg this]
    rfl
  | succ k ih =>
    intro s e
    rw [List.range'_succ, List.foldl_cons, ih]
    by_cases h1 : n = s
    · subst h1
      have h2 : ¬ (n + 1 ≤ n ∧ n < n + 1 + k) := by omega
      have h3 : n ≤ n ∧ n < n + (k + 1) := by omega
      rw [if_neg h2, if_pos h3, if_pos (Or.inr rfl)]
    · have h0 : ¬ (n = 0 ∨ n = s) := by omega
      rw [if_neg h0]
      by_cases h2 : s + 1 ≤ n ∧ n < s + 1 + k
      · rw [if_pos h2, if_pos (by omega)]
      · rw [if_neg h2, if_neg (by omega)]

theorem set_target_single (n : Nat) (e : Fade) (h1 : 1 ≤ n) (h2 : n ≤ 24) :
    set_target n e = set_target_body e n := by
  unfold set_target LED_COUNT
  rw [foldl_single set_target_body n (by omega) 24 1 e]
  rw [if_pos (by omega)]

theorem set_target_beyond (n : Nat) (e : Fade) (h : 24 < n) : set_target n e = e := by
  unfold set_target LED_COUNT
  rw [foldl_single set_target_body n (by omega) 24 1 e]
  have : ¬ (1 ≤ n ∧ n < 1 + 24) := by omega
  simp [this]

theorem getD_set_eq {α : Type} (l : List α) (i : Nat) (v d : α) (h : i < l.length) :
    (l.set i v).getD i d = v := by
  simp [List.getD_eq_getElem?_getD, h]

theorem getD_set_ne {α : Type} (l : List α) (i j : Nat) (v d : α) (h : i ≠ j) :
    (l.set i v).getD j d = l.getD j d := by
  simp [List.getD_eq_getElem?_getD, List.getElem?_set_ne h]

theorem service_range (e : Fade) (hl : e.leds.length = 25) (ht : e.targets.length = 24) :
    ∀ n, n ≤ 24 →
      ((List.range n).foldl service_led e).leds.length = 25 ∧
      ((List.range n).foldl service_led e).targets.length = 24 ∧
      (∀ c, c < n →
        ((List.range n).foldl service_led e).targets.getD c default =
          (tick_led (e.targets.getD c default) (e.leds.getD (c + 1) default)).1 ∧
        ((List.range n).foldl service_led e).leds.getD (c + 1) default =
          (tick_led (e.targets.getD c default) (e.leds.getD (c + 1) default)).2) ∧
      (∀ c, n ≤ c →
        ((List.range n).foldl service_led e).targets.getD c default = e.targets.getD c default ∧
        ((List.range n).foldl service_led e).leds.getD (c + 1) default =
          e.leds.getD (c + 1) default) ∧
      ((List.range n).foldl service_led e).leds.getD 0 default = e.leds.getD 0 default := by
  intro n
  induction n with
  | zero =>
    intro _
    exact ⟨hl, ht, fun c hc => absurd hc (Nat.not_lt_zero c), fun c _ => ⟨rfl, rfl⟩, rfl⟩
  | succ n ih =>
    intro hn
    obtain ⟨i1, i2, i3, i4, i5⟩ := ih (by omega)
    rw [List.range_succ, List.foldl_append]
    simp only [List.foldl_cons, List.foldl_nil]
    generalize (List.range n).foldl service_led e = e1 at i1 i2 i3 i4 i5
    have a1 := (i4 n (Nat.le_refl n)).1
    have a2 := (i4 n (Nat.le_refl n)).2
    unfold service_led
    simp only [a1, a2]
    refine ⟨by simp [i1], by simp [i2], ?_, ?_, ?_⟩
    · intro c hc
      by_cases hcn : c = n
      · subst hcn
        exact ⟨getD_set_eq _ _ _ _ (by omega), getD_set_eq _ _ _ _ (by omega)⟩
      · rw [getD_set_ne _ _ _ _ _ (Ne.symm hcn), getD_set_ne _ _ _ _ _ (by omega)]
        exact i3 c (by omega)
    · intro c hc
      rw [getD_set_ne _ _ _ _ _ (by omega), getD_set_ne _ _ _ _ _ (by omega)]
      exact i4 c (by omega)
    · rw [getD_set_ne _ _ _ _ _ (by omega)]
      exact i5

theorem user_service_led (e : Fade) (hl : e.leds.length = 25) (ht : e.targets.length = 24)
    (c : Nat) (hc : c < 24) :
    (user_service e).targets.getD c default =
      (tick_led (e.targets.getD c default) (e.leds.getD (c + 1) default)).1 ∧
    (user_service e).leds.getD (c + 1) default =
      (tick_led (e.targets.getD c default) (e.leds.getD (c + 1) default)).2 :=
  (service_range e hl ht 24 (Nat.le_refl _)).2.2.1 c hc

theorem user_service_length (e : Fade) (hl : e.leds.length = 25) (ht : e.targets.length = 24) :
    (user_service e).leds.length = 25 ∧ (user_service e).targets.length = 24 :=
  ⟨(service_range e hl ht 24 (Nat.le_refl _)).1, (service_range e hl ht 24 (Nat.le_refl _)).2.1⟩

theorem calc_increment_eq (v0 v1 : Nat) (h0 : v0 < 256) (h1 : v1 < 256) :
    calc_increment v0 v1 =
      ⟨if v0 < v1 then 16 * (v1 - v0) - 1 else 16 * (v0 - v1), 0⟩ := by
  by_cases h : v0 < v1
  · simp [calc_increment, FADE_DELAY_LOG2, Nat.shiftLeft_eq, Nat.shiftRight_eq_div_pow, h]
    rw [if_pos (by omega)]
    omega
  · simp [calc_increment, FADE_DELAY_LOG2, Nat.shiftLeft_eq, Nat.shiftRight_eq_div_pow, h]
    rw [if_pos (by omega)]
    omega

theorem adjust_led_eq (cur inc frac : Nat) (h : frac + inc < 65536) :
    adjust_led cur ⟨inc, frac⟩ =
      (if inc % 2 = 1 then (cur + (frac + inc) / 256) % 256
        else (cur + 256 - (frac + inc) / 256) % 256, ⟨inc, (frac + inc) % 256⟩) := by
  have h8 : ∀ x : Nat, x &&& 0xFF = x % 256 := fun x => Nat.and_pow_two_sub_one_eq_mod x 8
  have e1 : (frac + inc) % 65536 = frac + inc := Nat.mod_eq_of_lt h
  have e2 : (frac + inc) / 256 % 256 = (frac + inc) / 256 := by omega
  by_cases hp : inc % 2 = 1
  · have e3 : inc % 2 % 256 ≠ 0 := by omega
    simp only [adjust_led, Nat.shiftRight_eq_div_pow, Nat.and_one_is_mod, Nat.reducePow, h8,
      e1, e2, if_pos e3, if_pos hp]
  · have e3 : ¬ (inc % 2 % 256 ≠ 0) := by omega
    simp only [adjust_led, Nat.shiftRight_eq_div_pow, Nat.and_one_is_mod, Nat.reducePow, h8,
      e1, e2, if_neg e3, if_neg hp]

theorem adjust_iter_up (inc : Nat) (hodd : inc % 2 = 1) (hinc : inc < 65000) :
    ∀ (k cur frac : Nat), frac < 256 → cur + (frac + inc * k) / 256 < 256 →
      adjust_iter k (cur, ⟨inc, frac⟩) =
        (cur + (frac + inc * k) / 256, ⟨inc, (frac + inc * k) % 256⟩) := by
  intro k
  induction k with
  | zero =>
    intro cur frac hf _
    simp [adjust_iter]
    omega
  | succ k ih =>
    intro cur frac hf hb
    have hm : inc * (k + 1) = inc * k + inc := Nat.mul_succ inc k
    rw [hm] at hb ⊢
    simp only [adjust_iter]
    rw [adjust_led_eq cur inc frac (by omega), if_pos hodd]
    have e : (cur + (frac + inc) / 256) % 256 = cur + (frac + inc) / 256 := by omega
    rw [e, ih _ _ (Nat.mod_lt _ (by omega)) (by omega)]
    congr 1
    · omega
    · congr 1; omega

theorem adjust_iter_down (inc : Nat) (heven : inc % 2 = 0) (hinc : inc < 65000) :
    ∀ (k cur frac : Nat), frac < 256 → cur < 256 → (frac + inc * k) / 256 ≤ cur →
      adjust_iter k (cur, ⟨inc, frac⟩) =
        (cur - (frac + inc * k) / 256, ⟨inc, (frac + inc * k) % 256⟩) := by
  intro k
  induction k with
  | zero =>
    intro cur frac hf _ _
    simp [adjust_iter]
    omega
  | succ k ih =>
    intro cur frac hf hc hb
    have hm : inc * (k + 1) = inc * k + inc := Nat.mul_succ inc k
    rw [hm] at hb ⊢
    simp only [adjust_iter]
    rw [adjust_led_eq cur inc frac (by omega), if_neg (by omega)]
    have e : (cur + 256 - (frac + inc) / 256) % 256 = cur - (frac + inc) / 256 := by omega
    rw [e, ih _ _ (Nat.mod_lt _ (by omega)) (by omega) (by omega)]
    congr 1
    · omega
    · congr 1; omega

theorem ticks_led (k : Nat) : ∀ (e : Fade), e.leds.length = 25 → e.targets.length = 24 →
    ∀ c, c < 24 →
      ((ticks k e).targets.getD c default, (ticks k e).leds.getD (c + 1) default) =
        tick_led_iter k (e.targets.getD c default, e.leds.getD (c + 1) default) := by
  induction k with
  | zero => intro e _ _ c _; rfl
  | succ k ih =>
    intro e hl ht c hc
    have hlen := user_service_length e hl ht
    have hled := user_service_led e hl ht c hc
    simp only [ticks, tick_led_iter]
    rw [ih (user_service e) hlen.1 hlen.2 c hc, hled.1, hled.2]

theorem tick_led_iter_fading (k : Nat) : ∀ (t : target_struct) (l : ws_led_struct),
    k ≤ t.fade_delay →
    tick_led_iter k (t, l) =
      ({ t with fade_delay := t.fade_delay - k
                bookkeep_g := (adjust_iter k (l.g, t.bookkeep_g)).2
                bookkeep_r := (adjust_iter k (l.r, t.bookkeep_r)).2
                bookkeep_b := (adjust_iter k (l.b, t.bookkeep_b)).2 },
       { g := (adjust_iter k (l.g, t.bookkeep_g)).1
         r := (adjust_iter k (l.r, t.bookkeep_r)).1
         b := (adjust_iter k (l.b, t.bookkeep_b)).1 }) := by
  induction k with
  | zero => intro t l _; rfl
  | succ k ih =>
    intro t l hk
    have h0 : t.fade_delay ≠ 0 := by omega
    simp only [tick_led_iter, tick_led, h0, if_false]
    rw [ih _ _ (by simp only; omega)]
    simp only [adjust_iter]
    congr 2
    omega

theorem set_target_all (e : Fade) (ht : e.targets.length = 24) :
    ∀ k, k ≤ 24 →
      ((List.range' 1 k).foldl
        (fun e index => if 0 = 0 ∨ 0 = index then set_target_body e index else e) e).leds =
          e.leds ∧
      ((List.range' 1 k).foldl
        (fun e index => if 0 = 0 ∨ 0 = index then set_target_body e index else e)
          e).targets.length = 24 ∧
      (∀ c, c < k → ((List.range' 1 k).foldl
        (fun e index => if 0 = 0 ∨ 0 = index then set_target_body e index else e)
          e).targets.getD c default = new_target e (c + 1)) ∧
      (∀ c, k ≤ c → ((List.range' 1 k).foldl
        (fun e index => if 0 = 0 ∨ 0 = index then set_target_body e index else e)
          e).targets.getD c default = e.targets.getD c default) := by
  intro k
  induction k with
  | zero => intro _; exact ⟨rfl, ht, fun c hc => absurd hc (Nat.not_lt_zero c), fun _ _ => rfl⟩
  | succ k ih =>
    intro hk
    obtain ⟨i1, i2, i3, i4⟩ := ih (by omega)
    rw [List.range'_concat, List.foldl_append]
    simp only [List.foldl_cons, List.foldl_nil, true_or, if_true, Nat.one_mul]
    simp only [true_or, if_true] at i1 i2 i3 i4
    generalize (List.range' 1 k).foldl (fun e index => set_target_body e index) e = e1
      at i1 i2 i3 i4
    have hn : new_target e1 (1 + k) = new_target e (k + 1) := by
      unfold new_target; rw [i1, Nat.add_comm]
    unfold set_target_body
    simp only [hn, Nat.add_sub_cancel_left]
    refine ⟨i1, by simp [i2], ?_, ?_⟩
    · intro c hc
      by_cases hck : c = k
      · subst hck; exact getD_set_eq _ _ _ _ (by omega)
      · rw [getD_set_ne _ _ _ _ _ (Ne.symm hck)]; exact i3 c (by omega)
    · intro c hc
      rw [getD_set_ne _ _ _ _ _ (by omega)]; exact i4 c (by omega)

theorem set_target_led (ledn n : Nat) (e : Fade) (ht : e.targets.length = 24)
    (h1 : 1 ≤ n) (h2 : n ≤ 24) (hsel : ledn = 0 ∨ ledn = n) :
    (set_target ledn e).leds = e.leds ∧ (set_target ledn e).targets.length = 24 ∧
    (set_target ledn e).targets.getD (n - 1) default = new_target e n := by
  rcases hsel with h | h
  · subst h
    obtain ⟨a1, a2, a3, _⟩ := set_target_all e ht 24 (Nat.le_refl _)
    refine ⟨a1, a2, ?_⟩
    have := a3 (n - 1) (by omega)
    rw [show n - 1 + 1 = n by omega] at this
    exact this
  · subst h
    rw [set_target_single ledn e h1 h2]
    unfold set_target_body
    exact ⟨rfl, by simp [ht], getD_set_eq _ _ _ _ (by omega)⟩

theorem fade_channel (v0 v1 k : Nat) (h0 : v0 < 256) (h1 : v1 < 256) (hk : k ≤ 16) :
    (adjust_iter k (v0, calc_increment v0 v1)).1 =
      if v0 < v1 then v0 + ((16 * (v1 - v0) - 1) * k) / 256
      else v0 - (16 * (v0 - v1) * k) / 256 := by
  rw [calc_increment_eq v0 v1 h0 h1]
  by_cases h : v0 < v1
  · simp only [h, if_true]
    have hle : (16 * (v1 - v0) - 1) * k ≤ (16 * (v1 - v0) - 1) * 16 := Nat.mul_le_mul_left _ hk
    rw [adjust_iter_up (16 * (v1 - v0) - 1) (by omega) (by omega) k v0 0 (by omega)
      (by rw [Nat.zero_add]; omega)]
    simp
  · simp only [h, if_false]
    have hle : 16 * (v0 - v1) * k ≤ 16 * (v0 - v1) * 16 := Nat.mul_le_mul_left _ hk
    rw [adjust_iter_down (16 * (v0 - v1)) (by omega) (by omega) k v0 0 (by omega) h0
      (by rw [Nat.zero_add]; omega)]
    simp

theorem fade_channel_between (v0 v1 k : Nat) (h0 : v0 < 256) (h1 : v1 < 256) (hk : k ≤ 16) :
    min v0 v1 ≤ (adjust_iter k (v0, calc_increment v0 v1)).1 ∧
    (adjust_iter k (v0, calc_increment v0 v1)).1 ≤ max v0 v1 := by
  rw [fade_channel v0 v1 k h0 h1 hk]
  by_cases h : v0 < v1
  · have hle : (16 * (v1 - v0) - 1) * k ≤ (16 * (v1 - v0) - 1) * 16 := Nat.mul_le_mul_left _ hk
    simp only [h, if_true]
    omega
  · have hle : 16 * (v0 - v1) * k ≤ 16 * (v0 - v1) * 16 := Nat.mul_le_mul_left _ hk
    simp only [h, if_false]
    omega

theorem fade_channel_step (v0 v1 k : Nat) (h0 : v0 < 256) (h1 : v1 < 256) (hk : k < 16) :
    (v0 ≤ v1 → (adjust_iter k (v0, calc_increment v0 v1)).1 ≤
      (adjust_iter (k + 1) (v0, calc_increment v0 v1)).1) ∧
    (v1 ≤ v0 → (adjust_iter (k + 1) (v0, calc_increment v0 v1)).1 ≤
      (adjust_iter k (v0, calc_increment v0 v1)).1) := by
  rw [fade_channel v0 v1 k h0 h1 (by omega), fade_channel v0 v1 (k + 1) h0 h1 (by omega)]
  by_cases h : v0 < v1
  · have hm : (16 * (v1 - v0) - 1) * (k + 1) =
        (16 * (v1 - v0) - 1) * k + (16 * (v1 - v0) - 1) := Nat.mul_succ _ _
    simp only [h, if_true]
    omega
  · have hm : 16 * (v0 - v1) * (k + 1) = 16 * (v0 - v1) * k + 16 * (v0 - v1) :=
      Nat.mul_succ _ _
    have hle : 16 * (v0 - v1) * (k + 1) ≤ 16 * (v0 - v1) * 16 := Nat.mul_le_mul_left _ (by omega)
    simp only [h, if_false]
    omega

theorem fade_channel_end (v0 v1 : Nat) (h0 : v0 < 256) (h1 : v1 < 256) :
    (adjust_iter 16 (v0, calc_increment v0 v1)).1 = if v0 < v1 then v1 - 1 else v1 := by
  rw [fade_channel v0 v1 16 h0 h1 (Nat.le_refl _)]
  by_cases h : v0 < v1
  · simp only [h, if_true]; omega
  · simp only [h, if_false]; omega

theorem tick_led_iter_succ (k : Nat) : ∀ p : target_struct × ws_led_struct,
    tick_led_iter (k + 1) p = tick_led (tick_led_iter k p).1 (tick_led_iter k p).2 := by
  induction k with
  | zero => intro p; rfl
  | succ k ih => intro p; rw [tick_led_iter, ih]; rfl

theorem fade_led (e : Fade) (ledn n k : Nat) (hl : e.leds.length = 25)
    (ht : e.targets.length = 24) (h1 : 1 ≤ n) (h2 : n ≤ 24) (hsel : ledn = 0 ∨ ledn = n)
    (hk : k ≤ 16) :
    ((ticks k (set_target ledn e)).targets.getD (n - 1) default).fade_delay = 16 - k ∧
    ((ticks k (set_target ledn e)).targets.getD (n - 1) default).leds = e.leds.getD 0 default ∧
    (ticks k (set_target ledn e)).leds.getD n default =
      { g := (adjust_iter k ((e.leds.getD n default).g,
          calc_increment (e.leds.getD n default).g (e.leds.getD 0 default).g)).1
        r := (adjust_iter k ((e.leds.getD n default).r,
          calc_increment (e.leds.getD n default).r (e.leds.getD 0 default).r)).1
        b := (adjust_iter k ((e.leds.getD n default).b,
          calc_increment (e.leds.getD n default).b (e.leds.getD 0 default).b)).1 } := by
  obtain ⟨a1, a2, a3⟩ := set_target_led ledn n e ht h1 h2 hsel
  have h := ticks_led k (set_target ledn e) (by rw [a1]; exact hl) a2 (n - 1) (by omega)
  rw [show n - 1 + 1 = n by omega, a1, a3] at h
  have hfd : (new_target e n).fade_delay = 16 := rfl
  rw [tick_led_iter_fading k _ _ (by rw [hfd]; exact hk)] at h
  have hp := Prod.mk.inj h
  rw [hp.1, hp.2, hfd]
  exact ⟨rfl, rfl, rfl⟩

theorem fade_led_final (e : Fade) (ledn n : Nat) (hl : e.leds.length = 25)
    (ht : e.targets.length = 24) (h1 : 1 ≤ n) (h2 : n ≤ 24) (hsel : ledn = 0 ∨ ledn = n) :
    (ticks 17 (set_target ledn e)).leds.getD n default = e.leds.getD 0 default := by
  obtain ⟨a1, a2, a3⟩ := set_target_led ledn n e ht h1 h2 hsel
  have h16 := ticks_led 16 (set_target ledn e) (by rw [a1]; exact hl) a2 (n - 1) (by omega)
  have h17 := ticks_led 17 (set_target ledn e) (by rw [a1]; exact hl) a2 (n - 1) (by omega)
  obtain ⟨f1, f2, _⟩ := fade_led e ledn n 16 hl ht h1 h2 hsel (Nat.le_refl _)
  rw [tick_led_iter_succ, ← h16] at h17
  have hp := congrArg Prod.snd h17
  simp only at hp
  rw [show n - 1 + 1 = n by omega] at hp
  rw [hp]
  simp only [tick_led, f1, Nat.sub_self, if_true, f2]

theorem leds_byte (e : Fade) (hl : e.leds.length = 25)
    (hb : ∀ l ∈ e.leds, l.g < 256 ∧ l.r < 256 ∧ l.b < 256) (n : Nat) (hn : n ≤ 24) :
    (e.leds.getD n default).g < 256 ∧ (e.leds.getD n default).r < 256 ∧
    (e.leds.getD n default).b < 256 := by
  rw [List.getD_eq_getElem _ _ (by omega)]
  exact hb _ (List.getElem_mem _)

theorem shift_loop_spec (n : Nat) : ∀ (e : Fade), n ≤ 23 →
    e.leds.length = 25 → e.targets.length = 24 →
    (shift_loop n e).leds.length = 25 ∧ (shift_loop n e).targets.length = 24 ∧
    (∀ j, 1 ≤ j → j ≤ n →
      ((shift_loop n e).targets.getD j default).leds = (e.targets.getD (j - 1) default).leds) ∧
    (∀ j, j = 0 ∨ n < j →
      (shift_loop n e).targets.getD j default = e.targets.getD j default) ∧
    (∀ i, 1 ≤ i → (shift_loop n e).leds.getD i default = e.leds.getD i default) := by
  induction n with
  | zero =>
    intro e _ hl ht
    exact ⟨hl, ht, fun j h1 h2 => absurd h1 (by omega), fun _ _ => rfl, fun _ _ => rfl⟩
  | succ n ih =>
    intro e hn hl ht
    have hmod : (n + 1 + 1) % 256 = n + 2 := by omega
    have hst : set_target (n + 2)
        { e with leds := e.leds.set 0 (e.targets.getD n default).leds } =
        set_target_body { e with leds := e.leds.set 0 (e.targets.getD n default).leds } (n + 2) :=
      set_target_single _ _ (by omega) (by omega)
    simp only [shift_loop, hmod, hst]
    have hnew : (new_target { e with leds := e.leds.set 0 (e.targets.getD n default).leds }
        (n + 2)).leds = (e.targets.getD n default).leds := by
      simp only [new_target]
      exact getD_set_eq _ _ _ _ (by omega)
    obtain ⟨i1, i2, i3, i4, i5⟩ := ih
      (set_target_body { e with leds := e.leds.set 0 (e.targets.getD n default).leds } (n + 2))
      (by omega) (by simp [set_target_body, hl]) (by simp [set_target_body, ht])
    refine ⟨i1, i2, ?_, ?_, ?_⟩
    · intro j h1 h2
      by_cases hj : j = n + 1
      · subst hj
        rw [i4 (n + 1) (Or.inr (Nat.lt_succ_self n))]
        simp only [set_target_body, Nat.add_sub_cancel]
        rw [show n + 2 - 1 = n + 1 by omega, getD_set_eq _ _ _ _ (by omega), hnew]
      · rw [i3 j h1 (by omega)]
        simp only [set_target_body]
        rw [show n + 2 - 1 = n + 1 by omega, getD_set_ne _ _ _ _ _ (by omega)]
    · intro j hj
      rw [i4 j (by omega)]
      simp only [set_target_body]
      rw [show n + 2 - 1 = n + 1 by omega, getD_set_ne _ _ _ _ _ (by omega)]
    · intro i hi
      rw [i5 i hi]
      simp only [set_target_body]
      exact getD_set_ne _ _ _ _ _ (by omega)

theorem step_inv (m : Machine) (c : Nat) (h : BufferInv m) : BufferInv (step m c) := by
  obtain ⟨hl, hi, hc⟩ := h
  unfold BufferInv
  cases hs : m.state with
  | IDLE =>
    by_cases c1 : c = 0x0D <;> by_cases c2 : c = 0x1B <;>
      simp_all [step, send_string, ok_response]
  | LF =>
    by_cases c1 : c = 0x0D <;> by_cases c2 : c = 0x1B <;> by_cases c3 : c = 0x0A <;>
      simp_all [step, send_string, ok_response]
  | FIRST =>
    by_cases c1 : c = 0x0D <;> by_cases c2 : c = 0x1B <;> by_cases c3 : c = 0x41 <;>
      simp_all [step, send_string, ok_response]
  | SECOND =>
    have h0 : 0 < m.scratchpad.length := by omega
    by_cases c1 : c = 0x0D <;> by_cases c2 : c = 0x1B <;> by_cases c3 : c = 0x54 <;>
      simp_all [step, send_string, ok_response, getD_set_eq]
  | MESSAGE =>
    by_cases c1 : c = 0x1A
    · subst c1
      rw [step_message_ctrlz m hs]
      simp [hl, hi]
    · by_cases c2 : c = 0x1B
      · subst c2
        simp [step, hl, hi]
      · by_cases hh : m.have_nibble = true
        · by_cases hlt : m.scratchpad_index < 192
          · rw [step_message_low m c hs hh hlt c1 c2]
            simp [hl, hs]
            omega
          · have h2 : ¬ (m.have_nibble = true ∧ m.scratchpad_index < 192) := fun x => hlt x.2
            by_cases c3 : c = 0x0D
            · subst c3; simp [step, hs, send_string, ok_response, hh, hlt, hl, hi]
            · simp [step, hs, hh, hlt, c1, c2, c3, hl, hi]
        · have hf : m.have_nibble = false := by simpa using hh
          rw [step_message_high m c hs hf c1 c2]
          simp [hl, hi, hs]
  | CMD =>
    obtain ⟨hc1, hc2⟩ := hc hs
    by_cases c2 : c = 0x1B
    · subst c2
      simp [step, hl, hi]
    · by_cases c1 : c = 0x0D
      · subst c1
        simp only [step, send_string]
        simp only [hs]
        simp
        (repeat' split) <;> simp_all
      · by_cases hlt : m.scratchpad_index < 191
        · have hm : (m.scratchpad_index + 1) % 256 = m.scratchpad_index + 1 := by omega
          have hlen : m.scratchpad_index + 1 < (m.scratchpad.set m.scratchpad_index c).length := by
            rw [List.length_set]; omega
          have hg := getD_set_eq (m.scratchpad.set m.scratchpad_index c)
            (m.scratchpad_index + 1) 0 0 hlen
          rw [List.getD_eq_getElem?_getD] at hg
          simp [step, hs, c1, c2, hlt, hm, hl, hg]
          omega
        · rw [List.getD_eq_getElem?_getD] at hc2
          simp [step, hs, c1, c2, hlt, hl, hi, hc1, hc2]

theorem feed_inv (bs : List Nat) : ∀ m : Machine, BufferInv m → BufferInv (feed m bs).1 := by
  induction bs with
  | nil => intro m h; exact h
  | cons b bs ih =>
    intro m h
    simp only [feed]
    exact ih _ (step_inv m b h)

theorem init_inv : BufferInv init := by
  refine ⟨rfl, by decide, fun h => ?_⟩
  exact absurd h (by decide)

theorem mem_replicate_plain (n c : Nat) (h1 : c ≠ 0x1A) (h2 : c ≠ 0x1B) :
    ∀ x ∈ List.replicate n c, x ≠ 0x1A ∧ x ≠ 0x1B := by
  intro x hx
  rw [List.eq_of_mem_replicate hx]
  exact ⟨h1, h2⟩

theorem cmgs_entered :
    (feed init [0x0D, 0x0A, 0x41, 0x54, 0x2B, 0x43, 0x4D, 0x47, 0x53, 0x3D, 0x0D]).1.state =
      State.MESSAGE ∧
    (feed init [0x0D, 0x0A, 0x41, 0x54, 0x2B, 0x43, 0x4D, 0x47, 0x53, 0x3D, 0x0D]).1.have_nibble =
      false ∧
    (feed init [0x0D, 0x0A, 0x41, 0x54, 0x2B, 0x43, 0x4D, 0x47, 0x53, 0x3D,
      0x0D]).1.scratchpad_index = 0 := by
  decide

theorem step_swdten_other (m : Machine) (c : Nat) (h : ¬ (c = 0x0D ∧ m.state = State.CMD)) :
    (step m c).SWDTEN = m.SWDTEN := by
  unfold step send_string
  by_cases h1 : c = 0x0D <;> by_cases h2 : c = 0x1B <;> cases hs : m.state <;>
    simp_all <;> (repeat' split) <;> simp

theorem strncmp_head_ne (s1 s2 : List Nat) (n : Nat) (h : s1.headD 0 ≠ s2.headD 0) :
    strncmp s1 s2 (n + 1) ≠ 0 := by
  simp only [strncmp, h, ne_eq, not_false_eq_true, if_true]
  omega

theorem strncmp_two (p q a b : Nat) (tail rest : List Nat) (hp : p ≠ 0) :
    strncmp (p :: q :: tail) (a :: b :: rest) 2 = 0 ↔ (p = a ∧ q = b) := by
  by_cases h1 : p = a
  · by_cases h2 : q = b
    · subst h1; subst h2
      simp [strncmp, hp]
    · subst h1
      simp only [strncmp, List.headD_cons, ne_eq, not_true_eq_false, if_false, hp,
        List.tail_cons, h2, not_false_eq_true, if_true, true_and, iff_false]
      omega
  · simp only [strncmp, List.headD_cons, ne_eq, h1, not_false_eq_true, if_true, false_and,
      iff_false]
    omega

theorem step_cr_swdten (m : Machine) (hinv : BufferInv m) (hs : m.state = State.CMD)
    (hw : m.SWDTEN = false) :
    ((step m 0x0D).SWDTEN = true ↔
      [0x5A, 0x39] <+: m.scratchpad.take m.scratchpad_index) ∧
    ((step m 0x0D).SWDTEN = true →
      (step m 0x0D).toPC = m.toPC ++ [0x0D, 0x0A, 0x4F, 0x4B, 0x0D, 0x0A] ∧
      (step m 0x0D).state = State.LF) := by
  obtain ⟨hl, _, hc⟩ := hinv
  obtain ⟨hi, h0⟩ := hc hs
  obtain ⟨a, b, rest, hsp⟩ : ∃ a b rest, m.scratchpad = a :: b :: rest := by
    match hm : m.scratchpad, hl with
    | [], hl => simp at hl
    | [_], hl => simp at hl
    | a :: b :: rest, _ => exact ⟨a, b, rest, rfl⟩
  rw [hsp] at h0
  have e3 : strncmp reset_request (a :: b :: rest) 2 = 0 ↔ (0x5A = a ∧ 0x39 = b) :=
    strncmp_two 0x5A 0x39 a b [0] rest (by decide)
  have hpre : [0x5A, 0x39] <+: List.take m.scratchpad_index (a :: b :: rest) ↔
      (0x5A = a ∧ 0x39 = b) := by
    rcases hx : m.scratchpad_index with _ | _ | n
    · rw [hx] at h0
      simp at h0
      simp [h0]
    · rw [hx] at h0
      simp at h0
      simp [h0]
    · constructor
      · intro hp
        simp [List.take] at hp
        exact ⟨hp.1, hp.2⟩
      · rintro ⟨rfl, rfl⟩
        exact ⟨List.take n rest, rfl⟩
  rw [hsp, hpre]
  by_cases hz : 0x5A = a ∧ 0x39 = b
  · obtain ⟨rfl, rfl⟩ := hz
    have e1 : strncmp cmgs_request (0x5A :: 0x39 :: rest) 6 ≠ 0 :=
      strncmp_head_ne _ _ 5 (by simp [cmgs_request, cpin_request])
    have e2 : strncmp cpin_request (0x5A :: 0x39 :: rest) 6 ≠ 0 :=
      strncmp_head_ne _ _ 5 (by simp [cmgs_request, cpin_request])
    have e3' := e3.mpr ⟨rfl, rfl⟩
    simp [step, hs, hsp, e1, e2, e3', send_string, ok_response]
  · have e3' : strncmp reset_request (a :: b :: rest) 2 ≠ 0 := fun h => hz (e3.mp h)
    have hno : (step m 0x0D).SWDTEN = false := by
      simp only [step, send_string]
      simp only [hs, hsp, e3']
      simp
      (repeat' split) <;> simp [hw]
    simp [hno, hz]

theorem septet_loop_interpret (sp : List Nat) (idx : Nat) :
    ∀ (len index data bits ledn : Nat) (e : Fade),
      (septet_loop sp idx len index data bits ledn e).1 =
        (interpret (septet_loop sp idx len index data bits ledn e).2 ledn e).1 := by
  intro len
  induction len with
  | zero => intro index data bits ledn e; rfl
  | succ len ih =>
    intro index data bits ledn e
    by_cases h : index ≤ idx
    · simp only [septet_loop, h, if_true, interpret]
      exact ih _ _ _ _ _
    · simp only [septet_loop, h, if_false, interpret]

theorem decode_char_color (v ledn : Nat) (e : Fade)
    (hv : (0x61 ≤ v ∧ v ≤ 0x7A) ∨ (0x30 ≤ v ∧ v ≤ 0x39)) :
    decode_char v ledn e =
      (set_target ledn { e with leds := e.leds.set 0 (char_color v) }, (ledn + 1) % 256) := by
  have h1 : v ≠ 0x3E := by omega
  have h2 : v ≠ 0x20 := by omega
  unfold decode_char char_color
  by_cases h3 : 0x61 ≤ v ∧ v ≤ 0x7A
  · simp only [h1, h2, h3, if_false, if_true, ne_eq, not_false_eq_true, and_self]
  · have h4 : 0x30 ≤ v ∧ v ≤ 0x39 := by omega
    simp only [h1, h2, h3, h4, if_false, if_true, ne_eq, not_false_eq_true, and_self]

theorem interpret_colors (s : List Nat) : ∀ (p : Nat) (e : Fade),
    e.leds.length = 25 → e.targets.length = 24 → 1 ≤ p → p + s.length ≤ 25 →
    (∀ v ∈ s, (0x61 ≤ v ∧ v ≤ 0x7A) ∨ (0x30 ≤ v ∧ v ≤ 0x39)) →
    (interpret s p e).1.targets.length = 24 ∧
    (∀ i, i < s.length →
      ((interpret s p e).1.targets.getD (p - 1 + i) default).leds = char_color (s.getD i 0) ∧
      ((interpret s p e).1.targets.getD (p - 1 + i) default).fade_delay = 16) ∧
    (∀ j, j < p - 1 ∨ p - 1 + s.length ≤ j →
      (interpret s p e).1.targets.getD j default = e.targets.getD j default) ∧
    (∀ i, 1 ≤ i → (interpret s p e).1.leds.getD i default = e.leds.getD i default) := by
  induction s with
  | nil =>
    intro p e _ ht _ _ _
    exact ⟨ht, fun i hi => absurd hi (Nat.not_lt_zero i), fun _ _ => rfl, fun _ _ => rfl⟩
  | cons v vs ih =>
    intro p e hl ht hp hlen hv
    have hv0 := hv v (List.mem_cons_self _ _)
    simp only [List.length_cons] at hlen
    have hmod : (p + 1) % 256 = p + 1 := by omega
    simp only [interpret, decode_char_color v p e hv0, hmod]
    rw [set_target_single p _ hp (by omega)]
    have hnew : (new_target { e with leds := e.leds.set 0 (char_color v) } p).leds =
        char_color v := by
      simp only [new_target]
      exact getD_set_eq _ _ _ _ (by omega)
    have hfd : (new_target { e with leds := e.leds.set 0 (char_color v) } p).fade_delay =
        16 := rfl
    obtain ⟨i1, i2, i3, i4⟩ := ih (p + 1)
      (set_target_body { e with leds := e.leds.set 0 (char_color v) } p)
      (by simp [set_target_body, hl]) (by simp [set_target_body, ht]) (by omega) (by omega)
      (fun x hx => hv x (List.mem_cons_of_mem _ hx))
    refine ⟨i1, ?_, ?_, ?_⟩
    · intro i hi
      cases i with
      | zero =>
        have h3 := i3 (p - 1) (Or.inl (by omega))
        simp only [Nat.add_zero, List.getD_cons_zero]
        rw [h3]
        simp only [set_target_body]
        rw [getD_set_eq _ _ _ _ (by omega)]
        exact ⟨hnew, hfd⟩
      | succ i =>
        have := i2 i (by simp only [List.length_cons] at hi; omega)
        rw [show p + 1 - 1 + i = p - 1 + (i + 1) by omega] at this
        rw [List.getD_cons_succ]
        exact this
    · intro j hj
      rw [i3 j (by simp only [List.length_cons] at hj; omega)]
      simp only [set_target_body]
      exact getD_set_ne _ _ _ _ _ (by simp only [List.length_cons] at hj; omega)
    · intro i hi
      rw [i4 i hi]
      simp only [set_target_body]
      exact getD_set_ne _ _ _ _ _ (by omega)

theorem septet_fetches_length (sp : List Nat) (idx : Nat) :
    ∀ (len index data bits ledn : Nat) (e : Fade),
      (septet_fetches idx len index bits).length =
        (septet_loop sp idx len index data bits ledn e).2.length := by
  intro len
  induction len with
  | zero => intro index data bits ledn e; rfl
  | succ len ih =>
    intro index data bits ledn e
    by_cases h : index ≤ idx
    · by_cases hb : bits = 0
      · subst hb
        simp only [septet_fetches, septet_loop, h, if_true, ne_eq, not_true_eq_false, if_false,
          List.length_cons]
        rw [ih]
      · simp only [septet_fetches, septet_loop, h, if_true, ne_eq, hb, not_false_eq_true,
          if_false, List.length_cons]
        rw [ih]
    · simp only [septet_fetches, septet_loop, h, if_false, List.length_nil]

theorem getD_replicate (n c i : Nat) (h : i < n) : (List.replicate n c).getD i 0 = c := by
  rw [List.getD_eq_getElem _ _ (by rw [List.length_replicate]; exact h)]
  exact List.getElem_replicate _ _

theorem inv_stage (e : Fade) (c : ws_led_struct) (h : EngineInv e) :
    EngineInv { e with leds := e.leds.set 0 c } :=
  ⟨by simp [h.1], h.2.1, h.2.2⟩

theorem inv_set_target (e : Fade) (ledn : Nat) (h : EngineInv e) :
    EngineInv (set_target ledn e) := by
  obtain ⟨hl, ht, hf⟩ := h
  have hcases : ledn = 0 ∨ (1 ≤ ledn ∧ ledn ≤ 24) ∨ 24 < ledn := by omega
  rcases hcases with h | h | h
  · subst h
    obtain ⟨a1, a2, a3, _⟩ := set_target_all e ht 24 (Nat.le_refl _)
    refine ⟨by unfold set_target LED_COUNT; rw [a1]; exact hl, a2, fun c hc => ?_⟩
    unfold set_target LED_COUNT
    rw [a3 c hc]
    exact Nat.le_refl _
  · rw [set_target_single ledn e h.1 h.2]
    refine ⟨hl, by simp [set_target_body, ht], fun c hc => ?_⟩
    simp only [set_target_body]
    by_cases hc1 : c = ledn - 1
    · subst hc1
      rw [getD_set_eq _ _ _ _ (by omega)]
      exact Nat.le_refl _
    · rw [getD_set_ne _ _ _ _ _ (Ne.symm hc1)]
      exact hf c hc
  · rw [set_target_beyond ledn e h]
    exact ⟨hl, ht, hf⟩

theorem inv_shift_loop (n : Nat) : ∀ e : Fade, EngineInv e → EngineInv (shift_loop n e) := by
  induction n with
  | zero => intro e h; exact h
  | succ n ih =>
    intro e h
    simp only [shift_loop]
    exact ih _ (inv_set_target _ _ (inv_stage e _ h))

theorem tick_led_delay (t : target_struct) (l : ws_led_struct) :
    (tick_led t l).1.fade_delay ≤ t.fade_delay := by
  unfold tick_led
  split
  · exact Nat.le_refl _
  · simp only; omega

theorem inv_user_service (e : Fade) (h : EngineInv e) : EngineInv (user_service e) := by
  obtain ⟨hl, ht, hf⟩ := h
  obtain ⟨a1, a2⟩ := user_service_length e hl ht
  refine ⟨a1, a2, fun c hc => ?_⟩
  rw [(user_service_led e hl ht c hc).1]
  exact Nat.le_trans (tick_led_delay _ _) (hf c hc)

theorem init_engine_inv : EngineInv init.fade := by
  refine ⟨rfl, rfl, ?_⟩
  decide

theorem reachable_inv (e : Fade) (h : Reachable e) : EngineInv e := by
  induction h with
  | start => exact init_engine_inv
  | stage e c _ ih => exact inv_stage e c ih
  | target e ledn _ ih => exact inv_set_target e ledn ih
  | shift e _ ih => exact inv_shift_loop _ e ih
  | tick e _ ih => exact inv_user_service e ih

theorem tick_led_iter_done (k : Nat) : ∀ (t : target_struct) (l : ws_led_struct),
    t.fade_delay < k →
    (tick_led_iter k (t, l)).2 = t.leds ∧ (tick_led_iter k (t, l)).1.fade_delay = 0 ∧
    (tick_led_iter k (t, l)).1.leds = t.leds := by
  induction k with
  | zero => intro t l h; exact absurd h (Nat.not_lt_zero _)
  | succ k ih =>
    intro t l h
    simp only [tick_led_iter]
    by_cases h0 : t.fade_delay = 0
    · have ht : tick_led t l = (t, t.leds) := by simp [tick_led, h0]
      rw [ht]
      cases k with
      | zero => exact ⟨rfl, h0, rfl⟩
      | succ k => exact ih t t.leds (by omega)
    · have h1 : (tick_led t l).1.fade_delay = t.fade_delay - 1 := by simp [tick_led, h0]
      have h2 : (tick_led t l).1.leds = t.leds := by simp [tick_led, h0]
      have := ih (tick_led t l).1 (tick_led t l).2 (by omega)
      rw [h2] at this
      exact this

theorem ticks_length (k : Nat) : ∀ e : Fade, e.leds.length = 25 → e.targets.length = 24 →
    (ticks k e).leds.length = 25 ∧ (ticks k e).targets.length = 24 := by
  induction k with
  | zero => intro e hl ht; exact ⟨hl, ht⟩
  | succ k ih =>
    intro e hl ht
    have := user_service_length e hl ht
    exact ih _ this.1 this.2

theorem ticks_succ (k : Nat) : ∀ e : Fade, ticks (k + 1) e = user_service (ticks k e) := by
  induction k with
  | zero => intro e; rfl
  | succ k ih => intro e; rw [ticks, ih (user_service e)]; rfl

theorem user_service_slot0 (e : Fade) (hl : e.leds.length = 25) (ht : e.targets.length = 24) :
    (user_service e).leds.getD 0 default = e.leds.getD 0 default :=
  (service_range e hl ht 24 (Nat.le_refl _)).2.2.2.2

theorem list_ext_getD {α : Type} (d : α) (l1 l2 : List α) (hlen : l1.length = l2.length)
    (h : ∀ i, i < l1.length → l1.getD i d = l2.getD i d) : l1 = l2 := by
  apply List.ext_getElem hlen
  intro i h1 h2
  have := h i h1
  rw [List.getD_eq_getElem _ _ h1, List.getD_eq_getElem _ _ h2] at this
  exact this

theorem user_service_settled (e : Fade) (hl : e.leds.length = 25) (ht : e.targets.length = 24)
    (h : ∀ c, c < 24 → (e.targets.getD c default).fade_delay = 0 ∧
      e.leds.getD (c + 1) default = (e.targets.getD c default).leds) :
    user_service e = e := by
  obtain ⟨a1, a2⟩ := user_service_length e hl ht
  have a5 := user_service_slot0 e hl ht
  have hleds : (user_service e).leds = e.leds := by
    apply list_ext_getD default _ _ (a1.trans hl.symm)
    intro i h1
    cases i with
    | zero => exact a5
    | succ i =>
      have hc : i < 24 := by omega
      rw [(user_service_led e hl ht i hc).2]
      simp only [tick_led, (h i hc).1, if_true]
      exact (h i hc).2.symm
  have htar : (user_service e).targets = e.targets := by
    apply list_ext_getD default _ _ (a2.trans ht.symm)
    intro i h1
    have hc : i < 24 := by omega
    rw [(user_service_led e hl ht i hc).1]
    simp only [tick_led, (h i hc).1, if_true]
  generalize user_service e = e' at hleds htar
  cases e'
  cases e
  simp only at hleds htar
  rw [hleds, htar]

theorem and_128 (x : Nat) : (x &&& 0x80 ≠ 0) ↔ x.testBit 7 = true := by
  constructor
  · intro h
    obtain ⟨i, hi⟩ := Nat.ne_zero_implies_bit_true h
    rw [Nat.testBit_and] at hi
    have h2 : (128 : Nat).testBit i = true := by
      cases hx : x.testBit i <;> simp_all
    have h3 : (2 ^ 7 : Nat).testBit i = true := h2
    rw [Nat.testBit_two_pow] at h3
    have : 7 = i := by simpa using h3
    subst this
    cases hx : x.testBit 7 <;> simp_all
  · intro h hz
    have : (x &&& 0x80).testBit 7 = true := by
      rw [Nat.testBit_and, h]
      decide
    rw [hz] at this
    simp at this

theorem isr_emit_code (s : Strip) : (isr_emit s).2 = some (pulse_code (s.current_byte.testBit 7)) := by
  unfold isr_emit pulse_code
  by_cases h : s.current_byte.testBit 7 = true
  · simp [(and_128 _).mpr h, h]
  · have hn : ¬ (s.current_byte &&& 0x80 ≠ 0) := fun x => h ((and_128 _).mp x)
    simp only [hn, if_false]
    simp [h]

theorem shift_testBit (c j : Nat) (h1 : 1 ≤ j) (h2 : j ≤ 7) :
    ((c <<< 1) % 256).testBit j = c.testBit (j - 1) := by
  have : (256 : Nat) = 2 ^ 8 := by norm_num
  rw [this, Nat.testBit_mod_two_pow, Nat.testBit_shiftLeft]
  simp [h1]
  omega

theorem pulses_some (n : Nat) (mem : List Nat) (s : Strip) (code : Nat)
    (hg : s.GIE = true) (hf : s.SSP1IF = true) (hc : (isr mem s).2 = some code) :
    pulses (n + 1) mem s =
      ((pulses n mem { (isr mem s).1 with SSP1IF := true }).1,
        code :: (pulses n mem { (isr mem s).1 with SSP1IF := true }).2) := by
  simp only [pulses, hg, hf, and_self, if_true, hc]

theorem isr_mid (mem : List Nat) (s : Strip) (hf : s.SSP1IF = true)
    (hb : s.bit_position ≠ 0) :
    isr mem s =
      ({ s with SSP1IF := false
                current_byte := (s.current_byte <<< 1) % 256
                bit_position := (s.bit_position + 1) % 8 },
       some (pulse_code (s.current_byte.testBit 7))) := by
  have h7 : ∀ x : Nat, x &&& 0x7 = x % 8 := fun x => Nat.and_pow_two_sub_one_eq_mod x 3
  have hc := isr_emit_code { s with SSP1IF := false }
  simp only [isr, hf, if_true, hb, if_false]
  refine Prod.ext ?_ hc
  simp only [isr_emit, h7]

theorem isr_load (mem : List Nat) (s : Strip) (hf : s.SSP1IF = true)
    (hb : s.bit_position = 0) (hj : s.byte_count < 72) :
    isr mem s =
      ({ s with SSP1IF := false
                current_byte := (mem.getD s.ptr 0 <<< 1) % 256
                ptr := s.ptr + 1
                byte_count := s.byte_count + 1
                bit_position := 1 },
       some (pulse_code ((mem.getD s.ptr 0).testBit 7))) := by
  have h7 : ∀ x : Nat, x &&& 0x7 = x % 8 := fun x => Nat.and_pow_two_sub_one_eq_mod x 3
  have hne : ¬ (LED_COUNT * 3 = s.byte_count) := by unfold LED_COUNT; omega
  have hm : (s.byte_count + 1) % 256 = s.byte_count + 1 := by omega
  have hc := isr_emit_code { s with SSP1IF := false, current_byte := mem.getD s.ptr 0
                                    ptr := s.ptr + 1, byte_count := (s.byte_count + 1) % 256 }
  simp only [isr, hf, if_true, hb, hne, if_false]
  refine Prod.ext ?_ hc
  simp only [isr_emit, h7, hm, hb]

theorem isr_stop (mem : List Nat) (s : Strip) (hf : s.SSP1IF = true)
    (hb : s.bit_position = 0) (hj : s.byte_count = 72) :
    isr mem s = ({ s with SSP1IF := false, GIE := false, byte_count := 0 }, none) := by
  have he : LED_COUNT * 3 = s.byte_count := by unfold LED_COUNT; omega
  simp only [isr, hf, if_true, hb, he]

theorem pulses_bits (mem : List Nat) (B : Nat) (n : Nat) : ∀ (i : Nat) (s : Strip),
    1 ≤ i → i + n ≤ 8 → s.bit_position = i % 8 → s.GIE = true → s.SSP1IF = true →
    (∀ j, i ≤ j → j ≤ 7 → s.current_byte.testBit j = B.testBit (j - i)) →
    (pulses n mem s).2 = (List.range n).map (fun t => pulse_code (B.testBit (7 - i - t))) ∧
    (pulses n mem s).1.bit_position = (i + n) % 8 ∧
    (pulses n mem s).1.byte_count = s.byte_count ∧ (pulses n mem s).1.ptr = s.ptr ∧
    (pulses n mem s).1.GIE = true ∧ (pulses n mem s).1.SSP1IF = true := by
  induction n with
  | zero =>
    intro i s _ _ hb hg hf _
    exact ⟨rfl, hb, rfl, rfl, hg, hf⟩
  | succ n ih =>
    intro i s h1 h2 hb hg hf hinv
    have hi : i % 8 = i := by omega
    have hb0 : s.bit_position ≠ 0 := by omega
    have hisr := isr_mid mem s hf hb0
    rw [pulses_some n mem s _ hg hf (by rw [hisr])]
    rw [hisr]
    obtain ⟨a1, a2, a3, a4, a5, a6⟩ := ih (i + 1)
      { s with SSP1IF := true
               current_byte := (s.current_byte <<< 1) % 256
               bit_position := (s.bit_position + 1) % 8 }
      (by omega) (by omega) (by simp only; rw [hb, hi]) hg rfl
      (fun j hj1 hj2 => by
        simp only
        rw [shift_testBit _ j (by omega) hj2, hinv (j - 1) (by omega) (by omega)]
        congr 1
        omega)
    simp only at a1 a2 a3 a4 a5 a6 ⊢
    refine ⟨?_, by rw [a2]; congr 1; omega, a3, a4, a5, a6⟩
    rw [a1, List.range_succ_eq_map, List.map_cons, List.map_map]
    rw [hinv 7 (by omega) (Nat.le_refl _)]
    congr 1
    apply List.map_congr_left
    intro t _
    simp only [Function.comp]
    congr 2
    omega

theorem pulses_byte (mem : List Nat) (s : Strip) (hb : s.bit_position = 0)
    (hj : s.byte_count < 72) (hg : s.GIE = true) (hf : s.SSP1IF = true) :
    (pulses 8 mem s).2 =
      (List.range 8).map (fun t => pulse_code ((mem.getD s.ptr 0).testBit (7 - t))) ∧
    (pulses 8 mem s).1.bit_position = 0 ∧
    (pulses 8 mem s).1.byte_count = s.byte_count + 1 ∧ (pulses 8 mem s).1.ptr = s.ptr + 1 ∧
    (pulses 8 mem s).1.GIE = true ∧ (pulses 8 mem s).1.SSP1IF = true := by
  have hisr := isr_load mem s hf hb hj
  rw [pulses_some 7 mem s _ hg hf (by rw [hisr])]
  rw [hisr]
  obtain ⟨a1, a2, a3, a4, a5, a6⟩ := pulses_bits mem (mem.getD s.ptr 0) 7 1
    { s with SSP1IF := true
             current_byte := (mem.getD s.ptr 0 <<< 1) % 256
             ptr := s.ptr + 1
             byte_count := s.byte_count + 1
             bit_position := 1 }
    (Nat.le_refl _) (by omega) rfl hg rfl
    (fun j hj1 hj2 => shift_testBit _ j hj1 hj2)
  simp only at a1 a2 a3 a4 a5 a6 ⊢
  refine ⟨?_, a2, a3, a4, a5, a6⟩
  rw [a1]
  rfl

theorem pulses_add (mem : List Nat) (a b : Nat) : ∀ s : Strip,
    pulses (a + b) mem s =
      ((pulses b mem (pulses a mem s).1).1, (pulses a mem s).2 ++ (pulses b mem (pulses a mem s).1).2) := by
  induction a with
  | zero => intro s; simp [pulses]
  | succ a ih =>
    intro s
    rw [show a + 1 + b = (a + b) + 1 by omega]
    by_cases h : s.GIE = true ∧ s.SSP1IF = true
    · cases hc : (isr mem s).2 with
      | none =>
        simp only [pulses, h, and_self, if_true, hc]
        exact ih _
      | some code =>
        simp only [pulses, h, and_self, if_true, hc]
        rw [ih]
        simp
    · simp only [pulses, h, if_false]
      cases b with
      | zero => simp [pulses]
      | succ b => simp [pulses, h]

theorem pulses_bytes (mem : List Nat) (n : Nat) : ∀ s : Strip,
    s.bit_position = 0 → s.byte_count + n ≤ 72 → s.GIE = true → s.SSP1IF = true →
    (pulses (8 * n) mem s).2 =
      (List.range (8 * n)).map
        (fun k => pulse_code ((mem.getD (s.ptr + k / 8) 0).testBit (7 - k % 8))) ∧
    (pulses (8 * n) mem s).1.bit_position = 0 ∧
    (pulses (8 * n) mem s).1.byte_count = s.byte_count + n ∧
    (pulses (8 * n) mem s).1.ptr = s.ptr + n ∧
    (pulses (8 * n) mem s).1.GIE = true ∧ (pulses (8 * n) mem s).1.SSP1IF = true := by
  induction n with
  | zero =>
    intro s hb _ hg hf
    exact ⟨rfl, hb, rfl, rfl, hg, hf⟩
  | succ n ih =>
    intro s hb hj hg hf
    obtain ⟨b1, b2, b3, b4, b5, b6⟩ := pulses_byte mem s hb (by omega) hg hf
    obtain ⟨a1, a2, a3, a4, a5, a6⟩ := ih (pulses 8 mem s).1 b2 (by omega) b5 b6
    rw [show 8 * (n + 1) = 8 + 8 * n by omega, pulses_add]
    simp only
    refine ⟨?_, a2, by omega, by omega, a5, a6⟩
    have e1 : List.map (fun t => pulse_code ((mem.getD s.ptr 0).testBit (7 - t))) (List.range 8) =
        List.map (fun k => pulse_code ((mem.getD (s.ptr + k / 8) 0).testBit (7 - k % 8)))
          (List.range 8) := by
      apply List.map_congr_left
      intro t ht
      have ht8 : t < 8 := List.mem_range.mp ht
      rw [show t / 8 = 0 by omega, show t % 8 = t by omega, Nat.add_zero]
    have e2 : List.map
        (fun k => pulse_code ((mem.getD ((pulses 8 mem s).1.ptr + k / 8) 0).testBit (7 - k % 8)))
          (List.range (8 * n)) =
        List.map ((fun k => pulse_code ((mem.getD (s.ptr + k / 8) 0).testBit (7 - k % 8))) ∘
          fun x => 8 + x) (List.range (8 * n)) := by
      apply List.map_congr_left
      intro k _
      simp only [Function.comp]
      rw [b4, show (8 + k) / 8 = 1 + k / 8 by omega, show (8 + k) % 8 = k % 8 by omega,
        Nat.add_assoc]
    rw [a1, b1, List.range_add, List.map_append, List.map_map, e1, e2]

theorem pulses_none (n : Nat) (mem : List Nat) (s : Strip)
    (hg : s.GIE = true) (hf : s.SSP1IF = true) (hc : (isr mem s).2 = none) :
    pulses (n + 1) mem s = pulses n mem (isr mem s).1 := by
  simp only [pulses, hg, hf, and_self, if_true, hc]

theorem pulses_disabled (n : Nat) (mem : List Nat) (s : Strip) (hg : s.GIE = false) :
    pulses n mem s = (s, []) := by
  cases n with
  | zero => rfl
  | succ n => simp [pulses, hg]

theorem getD_led_bytes_tail (l : ws_led_struct) (ls : List ws_led_struct) (j : Nat) :
    (led_bytes (l :: ls)).getD (3 + j) 0 = (led_bytes ls).getD j 0 := by
  rw [show 3 + j = j + 1 + 1 + 1 by omega]
  simp only [led_bytes, List.getD_cons_succ]

theorem step_toPC_le (m : Machine) (c : Nat) :
    (step m c).toPC.length ≤ m.toPC.length + 20 := by
  unfold step send_string
  by_cases h1 : c = 0x0D <;> by_cases h2 : c = 0x1B <;> cases hs : m.state <;>
    simp [h1, h2, hs, ok_response, cpin_response, prompt_string] <;>
    (repeat' split) <;> simp

theorem parse_loop_inv (n : Nat) : ∀ L : Loop, L.m.toPC = [] → LoopInv L →
    LoopInv (parse_loop n L) := by
  induction n with
  | zero => intro L _ h; exact h
  | succ n ih =>
    intro L h0 h
    obtain ⟨i1, i2, _⟩ := h
    by_cases hr : L.read_index < L.fromPC_count
    · have hb := step_toPC_le L.m (L.incoming.getD L.read_index 0)
      rw [h0] at hb
      simp only [List.length_nil, Nat.zero_add] at hb
      have hp : ∀ x ∈ L.pending ++ [L.m.toPC.length], x = 0 := by
        intro x hx
        rcases List.mem_append.mp hx with hx | hx
        · exact i1 x hx
        · rw [h0] at hx
          simpa using hx
      by_cases ht : (step L.m (L.incoming.getD L.read_index 0)).toPC.length ≠ 0
      · simp only [parse_loop, hr, if_true, ht, ne_eq, not_false_eq_true]
        exact ⟨hp, i2, hb⟩
      · simp only [parse_loop, hr, if_true, ht, if_false]
        apply ih
        · simp only
          exact List.length_eq_zero.mp (by simpa using ht)
        · exact ⟨hp, i2, hb⟩
    · simp only [parse_loop, hr, if_false]
      exact ⟨i1, i2, by rw [h0]; simp⟩

theorem hand_over_inv (L : Loop) (h : LoopInv L) :
    LoopInv (hand_over L) ∧ (hand_over L).m.toPC = [] := by
  obtain ⟨i1, i2, i3⟩ := h
  unfold hand_over
  by_cases ht : L.m.toPC.length ≠ 0
  · rw [if_pos ht]
    refine ⟨⟨i1, ?_, Nat.zero_le _⟩, rfl⟩
    intro b hb2
    rcases List.mem_append.mp hb2 with hb2 | hb2
    · exact i2 b hb2
    · have : b = L.m.toPC := by simpa using hb2
      rw [this]; exact i3
  · rw [if_neg ht]
    exact ⟨⟨i1, i2, i3⟩, List.length_eq_zero.mp (by simpa using ht)⟩

theorem fetch_chunk_inv (u : Usb) (L : Loop) (h : LoopInv L) : LoopInv (fetch_chunk u L) := by
  unfold fetch_chunk
  split
  · exact h
  · exact h

theorem service_timer_inv (u : Usb) (L : Loop) (h : LoopInv L) : LoopInv (service_timer u L) :=
  h

theorem main_pass_inv (L : Loop) (u : Usb) (h : LoopInv L) : LoopInv (main_pass L u) := by
  have h1 := service_timer_inv u L h
  have h2 := hand_over_inv _ h1
  have h3 := parse_loop_inv
    ((hand_over (service_timer u L)).fromPC_count - (hand_over (service_timer u L)).read_index)
    _ h2.2 h2.1
  unfold main_pass
  split
  · exact h1
  · split
    · exact h1
    · split
      · exact h3
      · exact fetch_chunk_inv u _ h3

theorem main_run_inv (us : List Usb) : ∀ L : Loop, LoopInv L → LoopInv (us.foldl main_pass L) := by
  induction us with
  | nil => intro L h; exact h
  | cons u us ih => intro L h; exact ih _ (main_pass_inv L u h)

theorem main_start_inv : LoopInv main_start := by
  refine ⟨?_, ?_, ?_⟩
  · intro x hx; simp [main_start] at hx
  · intro b hb; simp [main_start] at hb
  · simp [main_start, init]

theorem parse_loop_done (n : Nat) : ∀ L : Loop, L.fromPC_count < 256 →
    L.fromPC_count - L.read_index ≤ n →
    (parse_loop n L).m.toPC.length ≠ 0 ∨
      ¬ ((parse_loop n L).read_index < (parse_loop n L).fromPC_count) := by
  induction n with
  | zero =>
    intro L _ h
    right
    simp only [parse_loop]
    omega
  | succ n ih =>
    intro L hc h
    by_cases hr : L.read_index < L.fromPC_count
    · by_cases ht : (step L.m (L.incoming.getD L.read_index 0)).toPC.length ≠ 0
      · left
        simp only [parse_loop, hr, if_true, ht, ne_eq, not_false_eq_true]
      · simp only [parse_loop, hr, if_true, ht, if_false]
        apply ih
        · exact hc
        · simp only
          omega
    · right
      have e : parse_loop (n + 1) L = L := by simp only [parse_loop, hr, if_false]
      rw [e]
      exact hr

theorem parse_loop_count (n : Nat) : ∀ L : Loop,
    (parse_loop n L).fromPC_count = L.fromPC_count := by
  induction n with
  | zero => intro L; rfl
  | succ n ih =>
    intro L
    by_cases hr : L.read_index < L.fromPC_count
    · by_cases ht : (step L.m (L.incoming.getD L.read_index 0)).toPC.length ≠ 0
      · simp only [parse_loop, hr, if_true, ht, ne_eq, not_false_eq_true]
      · simp only [parse_loop, hr, if_true, ht, if_false]
        rw [ih]
    · simp only [parse_loop, hr, if_false]

theorem main_pass_count (L : Loop) (u : Usb) (h : L.fromPC_count < 256) :
    (main_pass L u).fromPC_count < 256 := by
  have h3 : (parse_pending (hand_over (service_timer u L))).fromPC_count = L.fromPC_count := by
    unfold parse_pending
    rw [parse_loop_count]
    unfold hand_over
    split <;> rfl
  unfold main_pass
  split
  · exact h
  · split
    · exact h
    · split
      · rw [h3]; exact h
      · unfold fetch_chunk
        split
        · rw [h3]; exact h
        · exact Nat.mod_lt _ (by decide)

theorem main_run_count (us : List Usb) : ∀ L : Loop, L.fromPC_count < 256 →
    (us.foldl main_pass L).fromPC_count < 256 := by
  induction us with
  | nil => intro L h; exact h
  | cons u us ih => intro L h; exact ih _ (main_pass_count L u h)

/-! ## Claims about the command parser -/

/-- C1 (as stated, refuted): the sample `CR LF A T + C P I N ? CR` fed from the initial
state does not produce the 20 bytes `\r\n+CPIN: READY\r\nOK\r\n` as its total output. -/
theorem C1_sample_output_is_not_as_stated :
    (feed init [0x0D, 0x0A, 0x41, 0x54, 0x2B, 0x43, 0x50, 0x49, 0x4E, 0x3F, 0x0D]).2 ≠
      [0x0D, 0x0A, 0x2B, 0x43, 0x50, 0x49, 0x4E, 0x3A, 0x20, 0x52, 0x45, 0x41, 0x44, 0x59,
       0x0D, 0x0A, 0x4F, 0x4B, 0x0D, 0x0A] := by
  decide

/-- C1 (amended): fed from the initial state, the sample `CR LF A T + C P I N ? CR`
produces in total `\r\n\r\n+CPIN: READY\r\nOK\r\n` (both carriage returns are echoed:
the first ten bytes give `\r\n`, the last CR gives `\r\n+CPIN: READY\r\nOK\r\n`) and
leaves the parser in state LF. -/
theorem C1_sample_end_to_end :
    (feed init [0x0D, 0x0A, 0x41, 0x54, 0x2B, 0x43, 0x50, 0x49, 0x4E, 0x3F, 0x0D]).2 =
      [0x0D, 0x0A, 0x0D, 0x0A, 0x2B, 0x43, 0x50, 0x49, 0x4E, 0x3A, 0x20, 0x52, 0x45, 0x41,
       0x44, 0x59, 0x0D, 0x0A, 0x4F, 0x4B, 0x0D, 0x0A] ∧
    (feed init [0x0D, 0x0A, 0x41, 0x54, 0x2B, 0x43, 0x50, 0x49, 0x4E, 0x3F]).2 = [0x0D, 0x0A] ∧
    (step (feed init [0x0D, 0x0A, 0x41, 0x54, 0x2B, 0x43, 0x50, 0x49, 0x4E, 0x3F]).1 0x0D).toPC =
      [0x0D, 0x0A, 0x2B, 0x43, 0x50, 0x49, 0x4E, 0x3A, 0x20, 0x52, 0x45, 0x41,
       0x44, 0x59, 0x0D, 0x0A, 0x4F, 0x4B, 0x0D, 0x0A] ∧
    (feed init [0x0D, 0x0A, 0x41, 0x54, 0x2B, 0x43, 0x50, 0x49, 0x4E, 0x3F, 0x0D]).1.state =
      State.LF := by
  decide

/-- C3: for a command text `cmd` of fewer than 192 bytes without CR or ESC that does not
begin with `+CMGS=`, `+CPIN?` or `Z9`, feeding `CR LF A T cmd CR` to a parser in IDLE
(nothing pending, 192-byte buffer): the bytes before the final CR produce only the echo
of the first CR; the final CR produces exactly `\r\nOK\r\n`; the watchdog bit, the LED
engine and the count of interpreter calls are unchanged; the final state is LF. -/
theorem C3_unrecognized_command_ok (m : Machine) (cmd : List Nat)
    (hs : m.state = State.IDLE) (ht : m.toPC = []) (hl : m.scratchpad.length = 192)
    (hlen : cmd.length < 192) (hc : ∀ c ∈ cmd, c ≠ 0x0D ∧ c ≠ 0x1B)
    (h1 : ¬ [0x2B, 0x43, 0x4D, 0x47, 0x53, 0x3D] <+: cmd)
    (h2 : ¬ [0x2B, 0x43, 0x50, 0x49, 0x4E, 0x3F] <+: cmd)
    (h3 : ¬ [0x5A, 0x39] <+: cmd) :
    (feed m ([0x0D, 0x0A, 0x41, 0x54] ++ cmd)).2 = [0x0D, 0x0A] ∧
    (step (feed m ([0x0D, 0x0A, 0x41, 0x54] ++ cmd)).1 0x0D).toPC =
      [0x0D, 0x0A, 0x4F, 0x4B, 0x0D, 0x0A] ∧
    (feed m ([0x0D, 0x0A, 0x41, 0x54] ++ cmd ++ [0x0D])).2 =
      [0x0D, 0x0A, 0x0D, 0x0A, 0x4F, 0x4B, 0x0D, 0x0A] ∧
    (feed m ([0x0D, 0x0A, 0x41, 0x54] ++ cmd ++ [0x0D])).1.state = State.LF ∧
    (feed m ([0x0D, 0x0A, 0x41, 0x54] ++ cmd ++ [0x0D])).1.SWDTEN = m.SWDTEN ∧
    (feed m ([0x0D, 0x0A, 0x41, 0x54] ++ cmd ++ [0x0D])).1.fade = m.fade ∧
    (feed m ([0x0D, 0x0A, 0x41, 0x54] ++ cmd ++ [0x0D])).1.handled = m.handled := by
  have htake : cmd.take 191 = cmd := List.take_of_length_le (by omega)
  have hline := feed_at_line m cmd hs ht hl hc
  rw [htake, ht] at hline
  have hcr := step_cmd_cr_plain
    { m with state := State.CMD
             scratchpad := cmd ++ 0 :: m.scratchpad.tail.drop cmd.length
             scratchpad_index := cmd.length
             toPC := [] }
    cmd (m.scratchpad.tail.drop cmd.length) rfl rfl h1 h2 h3
  have hfull : feed m ([0x0D, 0x0A, 0x41, 0x54] ++ cmd ++ [0x0D]) =
      ({ m with state := State.LF
                scratchpad := cmd ++ 0 :: m.scratchpad.tail.drop cmd.length
                scratchpad_index := cmd.length
                toPC := [] },
       [0x0D, 0x0A, 0x0D, 0x0A, 0x4F, 0x4B, 0x0D, 0x0A]) := by
    rw [feed_append, hline]
    simp only [feed, hcr]
    simp
  rw [hline, hfull, hcr]
  simp

/-- C3 witness: `ATE0` from the initial state. -/
theorem C3_unrecognized_command_ok_witness :
    (feed init ([0x0D, 0x0A, 0x41, 0x54] ++ [0x45, 0x30] ++ [0x0D])).2 =
      [0x0D, 0x0A, 0x0D, 0x0A, 0x4F, 0x4B, 0x0D, 0x0A] :=
  (C3_unrecognized_command_ok init [0x45, 0x30] rfl rfl rfl (by decide)
    (by decide) (by decide) (by decide) (by decide)).2.2.1

/-- C5: from IDLE (nothing pending, 192-byte buffer), feeding
`CR LF A T +CMGS= a CR msg 0x1A`, where `a` has no CR or ESC and `msg` has no 0x1A or
ESC: the CR ending the command line produces the echo and the prompt `> ` (no OK); the
state is MESSAGE after every initial part of `msg`; `user_handle_message` has not been
called after any initial part of the bytes before 0x1A and has been called once after
0x1A, on the buffer collected so far; the 0x1A byte produces `OK\r\n`, which ends the
total output; the final state is IDLE. -/
theorem C5_cmgs_session (m : Machine) (a msg : List Nat)
    (hs : m.state = State.IDLE) (ht : m.toPC = []) (hl : m.scratchpad.length = 192)
    (ha : ∀ c ∈ a, c ≠ 0x0D ∧ c ≠ 0x1B) (hm : ∀ c ∈ msg, c ≠ 0x1A ∧ c ≠ 0x1B) :
    (step (feed m ([0x0D, 0x0A, 0x41, 0x54] ++ ([0x2B, 0x43, 0x4D, 0x47, 0x53, 0x3D] ++ a))).1
        0x0D).toPC = [0x0D, 0x0A, 0x3E, 0x20] ∧
    (∀ k, (feed m ([0x0D, 0x0A, 0x41, 0x54] ++ ([0x2B, 0x43, 0x4D, 0x47, 0x53, 0x3D] ++ a)
        ++ [0x0D] ++ msg.take k)).1.state = State.MESSAGE) ∧
    (∀ k, (feed m (([0x0D, 0x0A, 0x41, 0x54] ++ ([0x2B, 0x43, 0x4D, 0x47, 0x53, 0x3D] ++ a)
        ++ [0x0D] ++ msg).take k)).1.handled = m.handled) ∧
    (step (feed m ([0x0D, 0x0A, 0x41, 0x54] ++ ([0x2B, 0x43, 0x4D, 0x47, 0x53, 0x3D] ++ a)
        ++ [0x0D] ++ msg)).1 0x1A).toPC = [0x4F, 0x4B, 0x0D, 0x0A] ∧
    (feed m ([0x0D, 0x0A, 0x41, 0x54] ++ ([0x2B, 0x43, 0x4D, 0x47, 0x53, 0x3D] ++ a)
        ++ [0x0D] ++ msg ++ [0x1A])).1.handled = m.handled + 1 ∧
    (feed m ([0x0D, 0x0A, 0x41, 0x54] ++ ([0x2B, 0x43, 0x4D, 0x47, 0x53, 0x3D] ++ a)
        ++ [0x0D] ++ msg ++ [0x1A])).1.fade =
      (user_handle_message
        (feed m ([0x0D, 0x0A, 0x41, 0x54] ++ ([0x2B, 0x43, 0x4D, 0x47, 0x53, 0x3D] ++ a)
          ++ [0x0D] ++ msg)).1.scratchpad
        (feed m ([0x0D, 0x0A, 0x41, 0x54] ++ ([0x2B, 0x43, 0x4D, 0x47, 0x53, 0x3D] ++ a)
          ++ [0x0D] ++ msg)).1.scratchpad_index m.fade).1 ∧
    (∃ out, (feed m ([0x0D, 0x0A, 0x41, 0x54] ++ ([0x2B, 0x43, 0x4D, 0x47, 0x53, 0x3D] ++ a)
        ++ [0x0D] ++ msg ++ [0x1A])).2 = out ++ [0x4F, 0x4B, 0x0D, 0x0A]) ∧
    (feed m ([0x0D, 0x0A, 0x41, 0x54] ++ ([0x2B, 0x43, 0x4D, 0x47, 0x53, 0x3D] ++ a)
        ++ [0x0D] ++ msg ++ [0x1A])).1.state = State.IDLE := by
  have hc : ∀ c ∈ [0x2B, 0x43, 0x4D, 0x47, 0x53, 0x3D] ++ a, c ≠ 0x0D ∧ c ≠ 0x1B := by
    intro c hcm
    rcases List.mem_append.mp hcm with h | h
    · exact (by decide : ∀ c ∈ [0x2B, 0x43, 0x4D, 0x47, 0x53, 0x3D], c ≠ 0x0D ∧ c ≠ 0x1B) c h
    · exact ha c h
  have hline := feed_at_line m _ hs ht hl hc
  have htk : List.take 191 ([0x2B, 0x43, 0x4D, 0x47, 0x53, 0x3D] ++ a) =
      [0x2B, 0x43, 0x4D, 0x47, 0x53, 0x3D] ++ List.take 185 a := by
    rw [List.take_append_eq_append_take]
    simp
  rw [htk, ht] at hline
  generalize hL : [0x0D, 0x0A, 0x41, 0x54] ++ ([0x2B, 0x43, 0x4D, 0x47, 0x53, 0x3D] ++ a) = L
    at hline ⊢
  -- the machine when the command line is complete
  generalize hm1 : (feed m L).1 = m1 at hline
  have s1 : m1.state = State.CMD := by rw [← hm1, hline]
  have p1 : m1.toPC = [] := by rw [← hm1, hline]
  have n1 : m1.handled = m.handled := by rw [← hm1, hline]
  have f1 : m1.fade = m.fade := by rw [← hm1, hline]
  have hcr := step_cmd_cr_cmgs m1
    (List.take 185 a ++ 0 ::
      List.drop ([0x2B, 0x43, 0x4D, 0x47, 0x53, 0x3D] ++ List.take 185 a).length m.scratchpad.tail)
    s1 (by rw [← hm1, hline]; simp)
  -- the machine when the prompt has been sent
  have h2 : (feed m (L ++ [0x0D])).1 = { step m1 0x0D with toPC := [] } := by
    rw [feed_append, hm1]; rfl
  have s2 : (feed m (L ++ [0x0D])).1.state = State.MESSAGE := by rw [h2, hcr]
  have n2 : (feed m (L ++ [0x0D])).1.handled = m.handled := by rw [h2, hcr]; exact n1
  have f2 : (feed m (L ++ [0x0D])).1.fade = m.fade := by rw [h2, hcr]; exact f1
  have hmsg : ∀ cs, (∀ c ∈ cs, c ≠ 0x1A ∧ c ≠ 0x1B) →
      (feed m (L ++ [0x0D] ++ cs)).1.state = State.MESSAGE ∧
      (feed m (L ++ [0x0D] ++ cs)).1.handled = m.handled ∧
      (feed m (L ++ [0x0D] ++ cs)).1.fade = m.fade := by
    intro cs hcs
    have := feed_message_other cs _ s2 hcs
    rw [feed_append]
    exact ⟨this.1, this.2.1.trans n2, this.2.2.2.trans f2⟩
  have h3 := hmsg msg hm
  have p3 : (feed m (L ++ [0x0D] ++ msg)).1.toPC = [] := feed_toPC _ _ ht
  have hz := step_message_ctrlz _ h3.1
  have h4 : feed m (L ++ [0x0D] ++ msg ++ [0x1A]) =
      ({ step (feed m (L ++ [0x0D] ++ msg)).1 0x1A with toPC := [] },
       (feed m (L ++ [0x0D] ++ msg)).2 ++ [0x4F, 0x4B, 0x0D, 0x0A]) := by
    rw [feed_append (L ++ [0x0D] ++ msg) [0x1A]]
    simp only [feed, hz, p3]
    simp
  refine ⟨?_, ?_, ?_, ?_, ?_, ?_, ?_, ?_⟩
  · rw [hcr, p1]; rfl
  · intro k
    exact (hmsg _ (fun c hx => hm c (List.mem_of_mem_take hx))).1
  · intro k
    have hsplit := List.take_append_drop k (L ++ [0x0D] ++ msg)
    have hle1 := feed_handled_le (List.take k (L ++ [0x0D] ++ msg)) m
    have hle2 := feed_handled_le (List.drop k (L ++ [0x0D] ++ msg))
      (feed m (List.take k (L ++ [0x0D] ++ msg))).1
    have hall := h3.2.1
    rw [← hsplit, feed_append] at hall
    simp only at hall
    omega
  · rw [hz, p3]; rfl
  · rw [h4, hz]; exact congrArg (· + 1) h3.2.1
  · rw [h4, hz]; show (user_handle_message _ _ _).1 = _; rw [h3.2.2]
  · exact ⟨_, by rw [h4]⟩
  · rw [h4, hz]

/-- C5 witness: `AT+CMGS=21` followed by the hex text `0011` and Ctrl-Z, from the
initial state. -/
theorem C5_cmgs_session_witness :
    (feed init ([0x0D, 0x0A, 0x41, 0x54] ++ ([0x2B, 0x43, 0x4D, 0x47, 0x53, 0x3D] ++ [0x32, 0x31])
        ++ [0x0D] ++ [0x30, 0x30, 0x31, 0x31] ++ [0x1A])).1.state = State.IDLE :=
  (C5_cmgs_session init [0x32, 0x31] [0x30, 0x30, 0x31, 0x31] rfl rfl rfl
    (by decide) (by decide)).2.2.2.2.2.2.2

/-- C2 (as stated, refuted): after the single byte CR has been fed, so that the parser
waits for a line feed, the bytes `CR LF A T + C P I N ? CR` produce only the two CR-LF
echoes: neither `+CPIN: READY` nor `OK` is sent, and the final CR is answered by its
echo alone. -/
theorem C2_no_reply_after_pending_cr :
    (feed (feed init [0x0D]).1
      [0x0D, 0x0A, 0x41, 0x54, 0x2B, 0x43, 0x50, 0x49, 0x4E, 0x3F, 0x0D]).2 =
      [0x0D, 0x0A, 0x0D, 0x0A] ∧
    (step (feed (feed init [0x0D]).1
      [0x0D, 0x0A, 0x41, 0x54, 0x2B, 0x43, 0x50, 0x49, 0x4E, 0x3F]).1 0x0D).toPC =
      [0x0D, 0x0A] := by
  decide

/-- C2 (amended): for every byte sequence `pre` fed from the initial state, the final CR
of a following `CR LF A T + C P I N ? CR` is answered by exactly the CR-LF echo,
`+CPIN: READY\r\n` and `OK\r\n` if and only if `pre` left the parser in IDLE, or in CMD
with a collected text that does not begin with `+CMGS=`. -/
theorem C2_cpin_reply_iff (pre : List Nat) :
    (step (feed (feed init pre).1
        [0x0D, 0x0A, 0x41, 0x54, 0x2B, 0x43, 0x50, 0x49, 0x4E, 0x3F]).1 0x0D).toPC =
      [0x0D, 0x0A, 0x2B, 0x43, 0x50, 0x49, 0x4E, 0x3A, 0x20, 0x52, 0x45, 0x41, 0x44, 0x59,
       0x0D, 0x0A, 0x4F, 0x4B, 0x0D, 0x0A] ↔
    ((feed init pre).1.state = State.IDLE ∨
      ((feed init pre).1.state = State.CMD ∧
        strncmp cmgs_request (feed init pre).1.scratchpad 6 ≠ 0)) :=
  reply_to_cpin_line _ (feed_toPC pre init rfl)
    ((feed_scratchpad_length pre init).trans rfl)

/-- C4: in every machine state the byte 0x1B changes nothing but the parser state, which
becomes IDLE (no reply, no call of the interpreter, buffer and cursor untouched); and
whatever bytes follow, as long as they do not contain `CR LF A T`, the buffer and its
cursor stay as they were, the interpreter is not called and the parser reaches neither
CMD nor MESSAGE. -/
theorem C4_escape_resets (m : Machine) :
    step m 0x1B = { m with state := State.IDLE } ∧
    ∀ bs : List Nat, ¬ [0x0D, 0x0A, 0x41, 0x54] <:+: bs →
      (feed (step m 0x1B) bs).1.scratchpad = m.scratchpad ∧
      (feed (step m 0x1B) bs).1.scratchpad_index = m.scratchpad_index ∧
      (feed (step m 0x1B) bs).1.handled = m.handled ∧
      (feed (step m 0x1B) bs).1.state ≠ State.CMD ∧
      (feed (step m 0x1B) bs).1.state ≠ State.MESSAGE := by
  have h : step m 0x1B = { m with state := State.IDLE } := by
    simp [step]
  refine ⟨h, fun bs hbs => ?_⟩
  rw [h]
  exact feed_no_collect bs { m with state := State.IDLE } (by simp) (by simp)
    (by simpa [matched] using hbs)

/-- C4 witness: ESC in the middle of `ATZ9`, followed by `9 CR`. -/
theorem C4_escape_resets_witness :
    (feed (step (feed init [0x0D, 0x0A, 0x41, 0x54, 0x5A]).1 0x1B) [0x39, 0x0D]).1.scratchpad_index
      = (feed init [0x0D, 0x0A, 0x41, 0x54, 0x5A]).1.scratchpad_index :=
  ((C4_escape_resets (feed init [0x0D, 0x0A, 0x41, 0x54, 0x5A]).1).2 [0x39, 0x0D]
    (by decide)).2.1

/-- C6: in MESSAGE with the cursor at 0 and the have-nibble flag clear (the state the
`+CMGS=` dispatch leaves, whatever `nibble` holds), feeding `2k` characters (`k ≤ 192`,
none 0x1A or 0x1B) leaves the cursor at `k` and byte `i` of the buffer equal to
`16 * nib c(2i) + nib c(2i+1)`; the parser stays in MESSAGE; and when the characters are
the uppercase hexadecimal text of a byte sequence, the first `k` bytes of the buffer
are that sequence. -/
theorem C6_hex_pairs_decoded (m : Machine) (cs : List Nat) (k : Nat)
    (hs : m.state = State.MESSAGE) (hi : m.scratchpad_index = 0) (hh : m.have_nibble = false)
    (hl : m.scratchpad.length = 192) (hlen : cs.length = 2 * k) (hk : k ≤ 192)
    (hc : ∀ c ∈ cs, c ≠ 0x1A ∧ c ≠ 0x1B) :
    (feed m cs).1.scratchpad_index = k ∧
    (∀ i < k, (feed m cs).1.scratchpad.getD i 0 =
      16 * nib (cs.getD (2 * i) 0) + nib (cs.getD (2 * i + 1) 0)) ∧
    (feed m cs).1.state = State.MESSAGE ∧
    (∀ bytes : List Nat, (∀ b ∈ bytes, b < 256) → cs = hex_encode bytes →
      (feed m cs).1.scratchpad.take k = bytes) := by
  obtain ⟨t1, _, t3, t4, _, t6⟩ := feed_hex_pairs k cs m hs hh (by omega) hl hlen hc
  rw [hi] at t3 t6
  simp only [Nat.zero_add] at t3 t6
  refine ⟨t3, t6, t1, ?_⟩
  intro bytes hb hcs
  have hbl : bytes.length = k := by
    have := length_hex_encode bytes
    rw [← hcs, hlen] at this
    omega
  apply List.ext_getElem
  · simp [t4, hbl, hk]
  · intro i h1 h2
    have hik : i < k := by omega
    have h6 := t6 i hik
    have hg := getD_hex_encode bytes i h2
    rw [← hcs] at hg
    rw [hg.1, hg.2] at h6
    have hbi : bytes.getD i 0 < 256 := by
      rw [List.getD_eq_getElem _ _ h2]
      exact hb _ (List.getElem_mem _)
    rw [nib_hex_digit _ (by omega), nib_hex_digit _ (Nat.mod_lt _ (by omega))] at h6
    have hil : i < (feed m cs).1.scratchpad.length := by omega
    rw [List.getD_eq_getElem _ _ hil] at h6
    rw [List.getD_eq_getElem _ _ h2] at h6
    rw [List.getElem_take, h6]
    omega

/-- C6 witness: after `AT+CMGS=` from the initial state, the hex text `4A7F` is stored
as the bytes 0x4A, 0x7F. -/
theorem C6_hex_pairs_decoded_witness :
    (feed (feed init [0x0D, 0x0A, 0x41, 0x54, 0x2B, 0x43, 0x4D, 0x47, 0x53, 0x3D, 0x0D]).1
      [0x34, 0x41, 0x37, 0x46]).1.scratchpad.take 2 = [0x4A, 0x7F] :=
  (C6_hex_pairs_decoded
    (feed init [0x0D, 0x0A, 0x41, 0x54, 0x2B, 0x43, 0x4D, 0x47, 0x53, 0x3D, 0x0D]).1
    [0x34, 0x41, 0x37, 0x46] 2 (by decide) (by decide) (by decide)
    ((feed_scratchpad_length _ init).trans rfl) (by decide)
    (by decide) (by decide)).2.2.2 [0x4A, 0x7F] (by decide) (by decide)

/-! ## Claims about the payload decoder -/

/-- C7: for every string `s` of 7-bit characters whose GSM 7-bit packing lies in the
buffer right after the payload-length byte and ends within the 192 bytes, with the
payload-length byte equal to `|s|` and the cursor at the end of the packed bytes, the
values `val` recovered by the loop of `user_handle_message` are exactly `s`. -/
theorem C7_septet_round_trip (s sp : List Nat) (idx : Nat) (e : Fade)
    (hs : ∀ c ∈ s, c < 128)
    (hfit : message_index sp + 1 + (septet_pack s).length ≤ 192)
    (hlen : sp.getD (message_index sp) 0 = s.length)
    (hbytes : ∀ j < (septet_pack s).length,
      sp.getD (message_index sp + 1 + j) 0 = (septet_pack s).getD j 0)
    (hidx : idx = message_index sp + 1 + (septet_pack s).length) :
    (user_handle_message sp idx e).2 = s := by
  have hpl : (septet_pack s).length = (7 * s.length + 7) / 8 := by simp [septet_pack]
  have h1 : (message_index sp + 1) % 256 = message_index sp + 1 := by omega
  unfold user_handle_message
  simp only [hlen, h1]
  exact septet_loop_trace sp idx (by omega) s 0 (message_index sp + 1) 0 1 e hs (by omega)
    (by simp [Nat.mod_one])
    (fun j hj => by
      rw [hbytes j (by omega), getD_septet_pack s j (by omega)]
      simp)
    (by omega)

/-- C7 witness: the two characters `hi`, packed as E8 34 after an empty address. -/
theorem C7_septet_round_trip_witness :
    (user_handle_message ([0, 0, 0, 0, 0, 0, 0, 2, 0xE8, 0x34] ++ List.replicate 182 0) 10
      init.fade).2 = [0x68, 0x69] :=
  C7_septet_round_trip [0x68, 0x69] ([0, 0, 0, 0, 0, 0, 0, 2, 0xE8, 0x34] ++ List.replicate 182 0)
    10 init.fade (by decide) (by decide) (by decide) (by decide) (by decide)

/-! ## Claims about the fade engine -/

/-- C8 (as stated, refuted): from the all-dark initial engine, staging the first
rainbow color (0, 253, 3) and calling `set_target(1)`, sixteen ticks bring the countdown
of LED 1 to zero but leave its color at (0, 252, 2), one short of the target in both
rising channels. -/
theorem C8_upward_fade_stops_one_short :
    ((ticks 16 (set_target 1 { init.fade with leds := init.fade.leds.set 0 ⟨0, 253, 3⟩ })
      ).targets.getD 0 default).fade_delay = 0 ∧
    ((ticks 16 (set_target 1 { init.fade with leds := init.fade.leds.set 0 ⟨0, 253, 3⟩ })
      ).targets.getD 0 default).leds = ⟨0, 253, 3⟩ ∧
    (ticks 16 (set_target 1 { init.fade with leds := init.fade.leds.set 0 ⟨0, 253, 3⟩ })
      ).leds.getD 1 default = ⟨0, 252, 2⟩ := by
  obtain ⟨f1, f2, f3⟩ := fade_led
    { init.fade with leds := init.fade.leds.set 0 ⟨0, 253, 3⟩ } 1 1 16 rfl rfl
    (by decide) (by decide) (Or.inr rfl) (Nat.le_refl _)
  exact ⟨f1, f2.trans (by decide), f3.trans (by decide)⟩

/-- C8 (amended): for every engine with byte-valued colors, every LED `n` in 1..24 and
`set_target(ledn)` with `ledn = n` or `ledn = 0`, after exactly sixteen ticks the
countdown of LED `n` is zero and each channel equals the target value `V1` when
`V1 ≤ V0` and `V1 - 1` when `V1 > V0`; the seventeenth tick writes the target color,
so after seventeen ticks the LED equals the target exactly. -/
theorem C8_sixteen_ticks (e : Fade) (ledn n : Nat) (hl : e.leds.length = 25)
    (ht : e.targets.length = 24) (h1 : 1 ≤ n) (h2 : n ≤ 24) (hsel : ledn = 0 ∨ ledn = n)
    (hb : ∀ l ∈ e.leds, l.g < 256 ∧ l.r < 256 ∧ l.b < 256) :
    ((ticks 16 (set_target ledn e)).targets.getD (n - 1) default).fade_delay = 0 ∧
    (∀ i, i < 3 →
      (channels ((ticks 16 (set_target ledn e)).leds.getD n default)).getD i 0 =
        if (channels (e.leds.getD n default)).getD i 0 <
            (channels (e.leds.getD 0 default)).getD i 0
        then (channels (e.leds.getD 0 default)).getD i 0 - 1
        else (channels (e.leds.getD 0 default)).getD i 0) ∧
    (ticks 17 (set_target ledn e)).leds.getD n default = e.leds.getD 0 default := by
  obtain ⟨f1, _, f3⟩ := fade_led e ledn n 16 hl ht h1 h2 hsel (Nat.le_refl _)
  obtain ⟨bg, br, bb⟩ := leds_byte e hl hb n h2
  obtain ⟨sg, sr, sb⟩ := leds_byte e hl hb 0 (by omega)
  refine ⟨f1, ?_, fade_led_final e ledn n hl ht h1 h2 hsel⟩
  intro i hi
  rw [f3]
  interval_cases i
  · simpa [channels] using fade_channel_end _ _ bg sg
  · simpa [channels] using fade_channel_end _ _ br sr
  · simpa [channels] using fade_channel_end _ _ bb sb

/-- C8 witness: LED 5 of the initial engine with white staged. -/
theorem C8_sixteen_ticks_witness :
    (ticks 17 (set_target 5 { init.fade with leds := init.fade.leds.set 0 ⟨255, 255, 255⟩ })
      ).leds.getD 5 default =
      ({ init.fade with leds := init.fade.leds.set 0 ⟨255, 255, 255⟩ } : Fade).leds.getD 0
        default :=
  (C8_sixteen_ticks { init.fade with leds := init.fade.leds.set 0 ⟨255, 255, 255⟩ } 5 5
    rfl rfl (by decide) (by decide) (by decide) (by decide)).2.2

/-- C9: for every engine with byte-valued colors, every LED `n` in 1..24 affected by
`set_target(ledn)`, every channel and every `k ≤ 16`, the channel value after `k` ticks
lies between the start value `V0` and the target `V1`, and from `k` to `k + 1` ticks
(`k < 16`) it does not decrease when `V0 ≤ V1` and does not increase when `V1 ≤ V0`. -/
theorem C9_fade_is_monotone (e : Fade) (ledn n k i : Nat) (hl : e.leds.length = 25)
    (ht : e.targets.length = 24) (h1 : 1 ≤ n) (h2 : n ≤ 24) (hsel : ledn = 0 ∨ ledn = n)
    (hb : ∀ l ∈ e.leds, l.g < 256 ∧ l.r < 256 ∧ l.b < 256) (hk : k ≤ 16) (hi : i < 3) :
    (ticks 0 (set_target ledn e)).leds.getD n default = e.leds.getD n default ∧
    min ((channels (e.leds.getD n default)).getD i 0)
        ((channels (e.leds.getD 0 default)).getD i 0) ≤
      (channels ((ticks k (set_target ledn e)).leds.getD n default)).getD i 0 ∧
    (channels ((ticks k (set_target ledn e)).leds.getD n default)).getD i 0 ≤
      max ((channels (e.leds.getD n default)).getD i 0)
        ((channels (e.leds.getD 0 default)).getD i 0) ∧
    (k < 16 →
      ((channels (e.leds.getD n default)).getD i 0 ≤
          (channels (e.leds.getD 0 default)).getD i 0 →
        (channels ((ticks k (set_target ledn e)).leds.getD n default)).getD i 0 ≤
          (channels ((ticks (k + 1) (set_target ledn e)).leds.getD n default)).getD i 0) ∧
      ((channels (e.leds.getD 0 default)).getD i 0 ≤
          (channels (e.leds.getD n default)).getD i 0 →
        (channels ((ticks (k + 1) (set_target ledn e)).leds.getD n default)).getD i 0 ≤
          (channels ((ticks k (set_target ledn e)).leds.getD n default)).getD i 0)) := by
  obtain ⟨bg, br, bb⟩ := leds_byte e hl hb n h2
  obtain ⟨sg, sr, sb⟩ := leds_byte e hl hb 0 (by omega)
  have f0 := (fade_led e ledn n 0 hl ht h1 h2 hsel (by omega)).2.2
  have fk := (fade_led e ledn n k hl ht h1 h2 hsel hk).2.2
  refine ⟨by rw [f0]; rfl, ?_, ?_, ?_⟩
  · rw [fk]
    interval_cases i
    · simpa [channels] using (fade_channel_between _ _ k bg sg hk).1
    · simpa [channels] using (fade_channel_between _ _ k br sr hk).1
    · simpa [channels] using (fade_channel_between _ _ k bb sb hk).1
  · rw [fk]
    interval_cases i
    · simpa [channels] using (fade_channel_between _ _ k bg sg hk).2
    · simpa [channels] using (fade_channel_between _ _ k br sr hk).2
    · simpa [channels] using (fade_channel_between _ _ k bb sb hk).2
  · intro hk1
    have fk1 := (fade_led e ledn n (k + 1) hl ht h1 h2 hsel (by omega)).2.2
    rw [fk, fk1]
    interval_cases i
    · simpa [channels] using fade_channel_step _ _ k bg sg hk1
    · simpa [channels] using fade_channel_step _ _ k br sr hk1
    · simpa [channels] using fade_channel_step _ _ k bb sb hk1

/-- C9 witness: LED 3 of the initial engine fading to white, red channel, after 7 ticks. -/
theorem C9_fade_is_monotone_witness :
    (channels ((ticks 7 (set_target 3
        { init.fade with leds := init.fade.leds.set 0 ⟨255, 255, 255⟩ })).leds.getD 3
          default)).getD 1 0 ≤
      max ((channels (({ init.fade with leds := init.fade.leds.set 0 ⟨255, 255, 255⟩ } :
          Fade).leds.getD 3 default)).getD 1 0)
        ((channels (({ init.fade with leds := init.fade.leds.set 0 ⟨255, 255, 255⟩ } :
          Fade).leds.getD 0 default)).getD 1 0) :=
  (C9_fade_is_monotone { init.fade with leds := init.fade.leds.set 0 ⟨255, 255, 255⟩ } 3 3 7 1
    rfl rfl (by decide) (by decide) (by decide) (by decide) (by decide) (by decide)).2.2.1

/-- C10: for every engine state (25 color slots, 24 descriptors), after `shift_leds`
the target color of LED `i` is the target color LED `i - 1` had before, for every `i` in
2..24; the whole descriptor of LED 1 is unchanged; and the current colors in slots
1..24 are unchanged. -/
theorem C10_shift_leds (e : Fade) (hl : e.leds.length = 25) (ht : e.targets.length = 24) :
    (∀ i, 2 ≤ i → i ≤ 24 →
      ((shift_leds e).targets.getD (i - 1) default).leds =
        (e.targets.getD (i - 2) default).leds) ∧
    (shift_leds e).targets.getD 0 default = e.targets.getD 0 default ∧
    (∀ i, 1 ≤ i → i ≤ 24 → (shift_leds e).leds.getD i default = e.leds.getD i default) := by
  obtain ⟨_, _, a3, a4, a5⟩ := shift_loop_spec 23 e (Nat.le_refl _) hl ht
  refine ⟨?_, a4 0 (Or.inl rfl), fun i h1 _ => a5 i h1⟩
  intro i h1 h2
  have := a3 (i - 1) (by omega) (by omega)
  rw [show i - 1 - 1 = i - 2 by omega] at this
  exact this

/-- C10 witness: the initial engine after `a` has been applied to LED 1 and shifted. -/
theorem C10_shift_leds_witness :
    ((shift_leds (set_target 1 { init.fade with leds := init.fade.leds.set 0 ⟨0, 253, 3⟩ })
      ).targets.getD 1 default).leds =
    ((set_target 1 { init.fade with leds := init.fade.leds.set 0 ⟨0, 253, 3⟩ }
      ).targets.getD 0 default).leds :=
  (C10_shift_leds (set_target 1 { init.fade with leds := init.fade.leds.set 0 ⟨0, 253, 3⟩ })
    (by decide) (by decide)).1 2 (by decide) (by decide)

/-- C11: `set_target(ledn)` never changes the color array and keeps 24 descriptors. With
`ledn = 0` every descriptor gets the staged color `leds[0]` as target and countdown 16;
with `1 ≤ ledn ≤ 24` the descriptor of LED `ledn` gets them and every other descriptor
is unchanged; with `ledn > 24` no descriptor changes. -/
theorem C11_set_target_frame (e : Fade) (ledn : Nat) (ht : e.targets.length = 24) :
    (set_target ledn e).leds = e.leds ∧ (set_target ledn e).targets.length = 24 ∧
    (ledn = 0 → ∀ c, c < 24 →
      ((set_target ledn e).targets.getD c default).leds = e.leds.getD 0 default ∧
      ((set_target ledn e).targets.getD c default).fade_delay = 16) ∧
    (1 ≤ ledn → ledn ≤ 24 →
      ((set_target ledn e).targets.getD (ledn - 1) default).leds = e.leds.getD 0 default ∧
      ((set_target ledn e).targets.getD (ledn - 1) default).fade_delay = 16 ∧
      ∀ c, c ≠ ledn - 1 →
        (set_target ledn e).targets.getD c default = e.targets.getD c default) ∧
    (24 < ledn → (set_target ledn e).targets = e.targets) := by
  have hcases : ledn = 0 ∨ (1 ≤ ledn ∧ ledn ≤ 24) ∨ 24 < ledn := by omega
  rcases hcases with h | h | h
  · subst h
    obtain ⟨a1, a2, a3, _⟩ := set_target_all e ht 24 (Nat.le_refl _)
    refine ⟨a1, a2, ?_, fun h1 _ => absurd h1 (by omega), fun h1 => absurd h1 (by omega)⟩
    intro _ c hc
    have := a3 c hc
    unfold set_target LED_COUNT
    rw [this]
    exact ⟨rfl, rfl⟩
  · rw [set_target_single ledn e h.1 h.2]
    unfold set_target_body
    refine ⟨rfl, by simp [ht], fun h0 => absurd h0 (by omega), ?_, fun h1 => absurd h1 (by omega)⟩
    intro _ _
    simp only
    rw [getD_set_eq _ _ _ _ (by omega)]
    exact ⟨rfl, rfl, fun c hc => getD_set_ne _ _ _ _ _ (Ne.symm hc)⟩
  · rw [set_target_beyond ledn e h]
    exact ⟨rfl, ht, fun h0 => absurd h0 (by omega), fun _ h2 => absurd h2 (by omega), fun _ => rfl⟩

/-- C11 witness: `set_target(30)` on the initial engine. -/
theorem C11_set_target_frame_witness :
    (set_target 30 init.fade).targets = init.fade.targets :=
  (C11_set_target_frame init.fade 30 rfl).2.2.2.2 (by decide)

/-- C12 (as stated, refuted): after `AT+CMGS=` and 384 hexadecimal digits fed from the
initial state, the cursor `scratchpad_index` is 192, above capacity - 1 = 191. -/
theorem C12_cursor_reaches_192 :
    (feed init ([0x0D, 0x0A, 0x41, 0x54, 0x2B, 0x43, 0x4D, 0x47, 0x53, 0x3D, 0x0D] ++
      List.replicate 384 0x30)).1.scratchpad_index = 192 ∧
    ¬ (feed init ([0x0D, 0x0A, 0x41, 0x54, 0x2B, 0x43, 0x4D, 0x47, 0x53, 0x3D, 0x0D] ++
      List.replicate 384 0x30)).1.scratchpad_index ≤ 191 := by
  have h := feed_hex_pairs 192 (List.replicate 384 0x30)
    (feed init [0x0D, 0x0A, 0x41, 0x54, 0x2B, 0x43, 0x4D, 0x47, 0x53, 0x3D, 0x0D]).1
    cmgs_entered.1 cmgs_entered.2.1 (by rw [cmgs_entered.2.2])
    ((feed_scratchpad_length _ init).trans rfl) (List.length_replicate 384 0x30)
    (mem_replicate_plain 384 0x30 (by decide) (by decide))
  rw [feed_append]
  simp only
  rw [h.2.2.1, cmgs_entered.2.2]
  exact ⟨rfl, by decide⟩

/-- C12 (amended): for every byte sequence fed from the initial state, afterwards the
cursor is at most 192 (the capacity); and whenever the parser is in CMD, the only state
in which a prefix comparison is made, the cursor is at most 191 and the byte at the
cursor is 0 inside the 192-byte array. -/
theorem C12_buffer_invariant (bs : List Nat) :
    (feed init bs).1.scratchpad.length = 192 ∧
    (feed init bs).1.scratchpad_index ≤ 192 ∧
    ((feed init bs).1.state = State.CMD →
      (feed init bs).1.scratchpad_index ≤ 191 ∧
      (feed init bs).1.scratchpad.getD (feed init bs).1.scratchpad_index 0 = 0) :=
  feed_inv bs init init_inv

/-- C17: in CMD with the cursor at 191 a byte other than CR and ESC changes nothing at
all; in MESSAGE with the cursor at 192 a byte other than CR, 0x1A and ESC leaves buffer,
cursor, pending reply and state as they were; and a command text of more than 191 bytes
(no CR, no ESC) sent after `CR LF A T` to a parser in IDLE leaves exactly the machine
that its first 191 bytes leave, with those 191 bytes in the buffer and the cursor at
191, so that the terminating CR is answered in the same way. -/
theorem C17_silent_truncation :
    (∀ (m : Machine) (c : Nat), m.state = State.CMD → m.scratchpad_index = 191 →
      c ≠ 0x0D → c ≠ 0x1B → step m c = m) ∧
    (∀ (m : Machine) (c : Nat), m.state = State.MESSAGE → m.scratchpad_index = 192 →
      c ≠ 0x0D → c ≠ 0x1A → c ≠ 0x1B →
      (step m c).scratchpad = m.scratchpad ∧ (step m c).scratchpad_index = 192 ∧
      (step m c).toPC = m.toPC ∧ (step m c).state = State.MESSAGE) ∧
    (∀ (m : Machine) (cs : List Nat), m.state = State.IDLE → m.toPC = [] →
      m.scratchpad.length = 192 → (∀ c ∈ cs, c ≠ 0x0D ∧ c ≠ 0x1B) → 191 < cs.length →
      (feed m ([0x0D, 0x0A, 0x41, 0x54] ++ cs)).1.scratchpad.take 191 = cs.take 191 ∧
      (feed m ([0x0D, 0x0A, 0x41, 0x54] ++ cs)).1.scratchpad_index = 191 ∧
      feed m ([0x0D, 0x0A, 0x41, 0x54] ++ cs) =
        feed m ([0x0D, 0x0A, 0x41, 0x54] ++ cs.take 191) ∧
      feed m ([0x0D, 0x0A, 0x41, 0x54] ++ cs ++ [0x0D]) =
        feed m ([0x0D, 0x0A, 0x41, 0x54] ++ cs.take 191 ++ [0x0D])) := by
  refine ⟨?_, ?_, ?_⟩
  · intro m c hs hi c1 c2
    simp [step, hs, hi, c1, c2]
  · intro m c hs hi c1 c2 c3
    simp [step, hs, hi, c1, c2, c3]
  · intro m cs hs ht hl hc hlen
    have h1 := feed_at_line m cs hs ht hl hc
    have h2 := feed_at_line m (cs.take 191) hs ht hl
      (fun c hx => hc c (List.mem_of_mem_take hx))
    rw [List.take_take, Nat.min_self] at h2
    have hlt : (cs.take 191).length = 191 := by simp; omega
    have heq : feed m ([0x0D, 0x0A, 0x41, 0x54] ++ cs) =
        feed m ([0x0D, 0x0A, 0x41, 0x54] ++ cs.take 191) := by rw [h1, h2]
    refine ⟨?_, ?_, heq, ?_⟩
    · rw [h1]
      exact List.take_left' hlt
    · rw [h1]; exact hlt
    · rw [feed_append, feed_append (_ ++ cs.take 191), heq]

/-- C17 witness: a byte arriving in CMD with the cursor at 191 is dropped. -/
theorem C17_silent_truncation_witness :
    step { init with state := State.CMD, scratchpad_index := 191 } 0x41 =
      { init with state := State.CMD, scratchpad_index := 191 } :=
  C17_silent_truncation.1 { init with state := State.CMD, scratchpad_index := 191 } 0x41
    rfl rfl (by decide) (by decide)

/-- C18 (as stated, refuted): the line `ATZ9X`, whose command text `Z9X` is not the
literal `Z9`, arms the watchdog when it is terminated by CR. -/
theorem C18_longer_text_arms_watchdog :
    (feed init [0x0D, 0x0A, 0x41, 0x54, 0x5A, 0x39, 0x58]).1.scratchpad.take
      (feed init [0x0D, 0x0A, 0x41, 0x54, 0x5A, 0x39, 0x58]).1.scratchpad_index =
      [0x5A, 0x39, 0x58] ∧
    (feed init [0x0D, 0x0A, 0x41, 0x54, 0x5A, 0x39, 0x58]).1.SWDTEN = false ∧
    (step (feed init [0x0D, 0x0A, 0x41, 0x54, 0x5A, 0x39, 0x58]).1 0x0D).SWDTEN = true := by
  decide

/-- C18 (amended): for every byte sequence `pre` fed from the initial state that has not
armed the watchdog, processing a further byte sets SWDTEN if and only if the byte is CR,
the parser is in CMD and the collected text begins with `Z9`; and when it does, the
reply to that byte is the CR-LF echo followed by `OK\\r\\n` and the parser goes to LF. -/
theorem C18_watchdog_arming (pre : List Nat) (key : Nat)
    (hw : (feed init pre).1.SWDTEN = false) :
    ((step (feed init pre).1 key).SWDTEN = true ↔
      key = 0x0D ∧ (feed init pre).1.state = State.CMD ∧
      [0x5A, 0x39] <+:
        (feed init pre).1.scratchpad.take (feed init pre).1.scratchpad_index) ∧
    ((step (feed init pre).1 key).SWDTEN = true →
      (step (feed init pre).1 key).toPC = [0x0D, 0x0A, 0x4F, 0x4B, 0x0D, 0x0A] ∧
      (step (feed init pre).1 key).state = State.LF) := by
  have hinv := feed_inv pre init init_inv
  have hp := feed_toPC pre init rfl
  by_cases h : key = 0x0D ∧ (feed init pre).1.state = State.CMD
  · obtain ⟨rfl, hs⟩ := h
    obtain ⟨a1, a2⟩ := step_cr_swdten _ hinv hs hw
    rw [hp] at a2
    refine ⟨?_, a2⟩
    rw [a1]
    simp [hs]
  · have hno := step_swdten_other (feed init pre).1 key h
    rw [hw] at hno
    refine ⟨?_, fun h1 => absurd (hno.symm.trans h1) (by decide)⟩
    rw [hno]
    constructor
    · intro h1; exact absurd h1 (by decide)
    · intro h1; exact absurd ⟨h1.1, h1.2.1⟩ h

/-- C18 witness: the line `ATZ9` from the initial state. -/
theorem C18_watchdog_arming_witness :
    (step (feed init [0x0D, 0x0A, 0x41, 0x54, 0x5A, 0x39]).1 0x0D).SWDTEN = true :=
  (C18_watchdog_arming [0x0D, 0x0A, 0x41, 0x54, 0x5A, 0x39] 0x0D (by decide)).1.mpr
    ⟨rfl, by decide, by decide⟩

/-- C16: for every engine with 25 color slots and 24 descriptors,
(1) `user_handle_message` applies the recovered characters in order, starting with the
running index 1; (2) `>` shifts and sets the index to 1; (3) every other character
advances the index by one (modulo 256); (4) a letter at index `p` in 1..24 makes
`rainbow[c - 'a']` the target color of LED `p` and leaves the other descriptors alone;
(5) a digit does the same with `grayscale[c - '0']`; (6) `X` makes (0,0,0) the target
color of all 24 LEDs; (7) any other character, space included, leaves the engine as it
is; (8) when the recovered characters are `k ≤ 24` letters or digits, the target color
of LED `i` is the table color of the `i`-th character for `i ≤ k` and the descriptors
of LEDs `k+1 .. 24` are unchanged. -/
theorem C16_interpreter (e : Fade) (hl : e.leds.length = 25) (ht : e.targets.length = 24) :
    (∀ sp idx, (user_handle_message sp idx e).1 =
      (interpret (user_handle_message sp idx e).2 1 e).1) ∧
    (∀ ledn, decode_char 0x3E ledn e = (shift_leds e, 1)) ∧
    (∀ v ledn, v ≠ 0x3E → (decode_char v ledn e).2 = (ledn + 1) % 256) ∧
    (∀ v p, 1 ≤ p → p ≤ 24 → 0x61 ≤ v → v ≤ 0x7A →
      ((decode_char v p e).1.targets.getD (p - 1) default).leds =
        rainbow.getD (v - 0x61) default ∧
      ∀ j, j ≠ p - 1 →
        (decode_char v p e).1.targets.getD j default = e.targets.getD j default) ∧
    (∀ v p, 1 ≤ p → p ≤ 24 → 0x30 ≤ v → v ≤ 0x39 →
      ((decode_char v p e).1.targets.getD (p - 1) default).leds =
        grayscale.getD (v - 0x30) default ∧
      ∀ j, j ≠ p - 1 →
        (decode_char v p e).1.targets.getD j default = e.targets.getD j default) ∧
    (∀ p c, c < 24 →
      ((decode_char 0x58 p e).1.targets.getD c default).leds = ⟨0, 0, 0⟩) ∧
    (∀ v p, v ≠ 0x3E → ¬ (0x61 ≤ v ∧ v ≤ 0x7A) → ¬ (0x30 ≤ v ∧ v ≤ 0x39) → v ≠ 0x58 →
      (decode_char v p e).1 = e) ∧
    (∀ sp idx, (user_handle_message sp idx e).2.length ≤ 24 →
      (∀ v ∈ (user_handle_message sp idx e).2,
        (0x61 ≤ v ∧ v ≤ 0x7A) ∨ (0x30 ≤ v ∧ v ≤ 0x39)) →
      (∀ i, i < (user_handle_message sp idx e).2.length →
        ((user_handle_message sp idx e).1.targets.getD i default).leds =
          char_color ((user_handle_message sp idx e).2.getD i 0)) ∧
      (∀ j, (user_handle_message sp idx e).2.length ≤ j →
        (user_handle_message sp idx e).1.targets.getD j default =
          e.targets.getD j default)) := by
  have hA : ∀ sp idx, (user_handle_message sp idx e).1 =
      (interpret (user_handle_message sp idx e).2 1 e).1 := by
    intro sp idx
    unfold user_handle_message
    exact septet_loop_interpret sp idx _ _ _ _ _ _
  have hcol : ∀ v p, 1 ≤ p → p ≤ 24 → ((0x61 ≤ v ∧ v ≤ 0x7A) ∨ (0x30 ≤ v ∧ v ≤ 0x39)) →
      ((decode_char v p e).1.targets.getD (p - 1) default).leds = char_color v ∧
      ∀ j, j ≠ p - 1 →
        (decode_char v p e).1.targets.getD j default = e.targets.getD j default := by
    intro v p h1 h2 hv
    rw [decode_char_color v p e hv]
    simp only
    rw [set_target_single p _ h1 h2]
    simp only [set_target_body]
    refine ⟨?_, fun j hj => getD_set_ne _ _ _ _ _ (Ne.symm hj)⟩
    rw [getD_set_eq _ _ _ _ (by omega)]
    simp only [new_target]
    exact getD_set_eq _ _ _ _ (by omega)
  refine ⟨hA, ?_, ?_, ?_, ?_, ?_, ?_, ?_⟩
  · intro ledn
    simp [decode_char]
  · intro v ledn hv
    simp [decode_char, hv]
  · intro v p h1 h2 h3 h4
    have := hcol v p h1 h2 (Or.inl ⟨h3, h4⟩)
    simp only [char_color, h3, h4, and_self, if_true] at this
    exact this
  · intro v p h1 h2 h3 h4
    have := hcol v p h1 h2 (Or.inr ⟨h3, h4⟩)
    have hn : ¬ (0x61 ≤ v ∧ v ≤ 0x7A) := by omega
    simp only [char_color, hn, if_false] at this
    exact this
  · intro p c hc
    have hd : (decode_char 0x58 p e).1 =
        set_target 0 { e with leds := e.leds.set 0 (grayscale.getD 0 default) } := by
      simp [decode_char]
    rw [hd]
    have := (set_target_led 0 (c + 1)
      { e with leds := e.leds.set 0 (grayscale.getD 0 default) } ht (by omega) (by omega)
      (Or.inl rfl)).2.2
    rw [Nat.add_sub_cancel] at this
    rw [this]
    simp only [new_target]
    rw [getD_set_eq _ _ _ _ (by omega)]
    rfl
  · intro v p h1 h2 h3 h4
    simp [decode_char, h1, h2, h3, h4]
  · intro sp idx hlen hv
    rw [hA sp idx]
    obtain ⟨_, a2, a3, _⟩ := interpret_colors (user_handle_message sp idx e).2 1 e hl ht
      (Nat.le_refl _) (by omega) hv
    refine ⟨fun i hi => ?_, fun j hj => ?_⟩
    · have := (a2 i hi).1
      rw [show 1 - 1 + i = i by omega] at this
      exact this
    · exact a3 j (Or.inr (by omega))

/-- C16 witness: the payload `ab` (packed as 61 31) after an empty address, on the
initial engine. -/
theorem C16_interpreter_witness :
    ((user_handle_message ([0, 0, 0, 0, 0, 0, 0, 2, 0x61, 0x31] ++ List.replicate 182 0) 10
      init.fade).1.targets.getD 1 default).leds =
    char_color ((user_handle_message ([0, 0, 0, 0, 0, 0, 0, 2, 0x61, 0x31] ++
      List.replicate 182 0) 10 init.fade).2.getD 1 0) :=
  ((C16_interpreter init.fade rfl rfl).2.2.2.2.2.2.2
    ([0, 0, 0, 0, 0, 0, 0, 2, 0x61, 0x31] ++ List.replicate 182 0) 10
    (by decide) (by decide)).1 1 (by decide)

/-- C15 (the code at a failing input): after `AT+CMGS=1231` the message `000000000000000541`
stores nine bytes, one of them payload (0x41) with a declared length of 5; position 9 of
the buffer still holds the `1` of the command line. The loop fetches position 9 and
recovers two characters, `A` and `b`, and LED 2 gets the color of `b` as target. -/
theorem C15_stale_byte_is_decoded :
    (feed init ([0x0D, 0x0A, 0x41, 0x54, 0x2B, 0x43, 0x4D, 0x47, 0x53, 0x3D, 0x31, 0x32, 0x33,
      0x31, 0x0D] ++ [0x30, 0x30, 0x30, 0x30, 0x30, 0x30, 0x30, 0x30, 0x30, 0x30, 0x30, 0x30,
      0x30, 0x30, 0x30, 0x35, 0x34, 0x31])).1.scratchpad_index = 9 ∧
    (feed init ([0x0D, 0x0A, 0x41, 0x54, 0x2B, 0x43, 0x4D, 0x47, 0x53, 0x3D, 0x31, 0x32, 0x33,
      0x31, 0x0D] ++ [0x30, 0x30, 0x30, 0x30, 0x30, 0x30, 0x30, 0x30, 0x30, 0x30, 0x30, 0x30,
      0x30, 0x30, 0x30, 0x35, 0x34, 0x31])).1.scratchpad.take 10 =
      [0, 0, 0, 0, 0, 0, 0, 5, 0x41, 0x31] ∧
    handle_fetches [0, 0, 0, 0, 0, 0, 0, 5, 0x41, 0x31] 9 =
      [some 3, some 7, some 8, some 9] ∧
    (user_handle_message
      (feed init ([0x0D, 0x0A, 0x41, 0x54, 0x2B, 0x43, 0x4D, 0x47, 0x53, 0x3D, 0x31, 0x32,
        0x33, 0x31, 0x0D] ++ [0x30, 0x30, 0x30, 0x30, 0x30, 0x30, 0x30, 0x30, 0x30, 0x30, 0x30,
        0x30, 0x30, 0x30, 0x30, 0x35, 0x34, 0x31])).1.scratchpad 9 init.fade).2 =
      [0x41, 0x62] ∧
    ((feed init ([0x0D, 0x0A, 0x41, 0x54, 0x2B, 0x43, 0x4D, 0x47, 0x53, 0x3D, 0x31, 0x32, 0x33,
      0x31, 0x0D] ++ [0x30, 0x30, 0x30, 0x30, 0x30, 0x30, 0x30, 0x30, 0x30, 0x30, 0x30, 0x30,
      0x30, 0x30, 0x30, 0x35, 0x34, 0x31] ++ [0x1A])).1.fade.targets.getD 1 default).leds =
      ⟨0, 226, 30⟩ := by
  decide

/-- C19 (the code at a failing input): after `AT+CMGS=` and 384 characters `F` the
buffer holds 192 bytes 0xFF and the cursor is 192; `user_handle_message` then finds the
payload-length byte 255 at position 135 and its loop, whose guard is
`index <= scratchpad_index`, fetches `scratchpad[192]`, one past the end of the array. -/
theorem C19_fetch_past_the_buffer :
    (feed init ([0x0D, 0x0A, 0x41, 0x54, 0x2B, 0x43, 0x4D, 0x47, 0x53, 0x3D, 0x0D] ++
      List.replicate 384 0x46)).1.scratchpad.length = 192 ∧
    (feed init ([0x0D, 0x0A, 0x41, 0x54, 0x2B, 0x43, 0x4D, 0x47, 0x53, 0x3D, 0x0D] ++
      List.replicate 384 0x46)).1.scratchpad_index = 192 ∧
    some 192 ∈ handle_fetches
      (feed init ([0x0D, 0x0A, 0x41, 0x54, 0x2B, 0x43, 0x4D, 0x47, 0x53, 0x3D, 0x0D] ++
        List.replicate 384 0x46)).1.scratchpad
      (feed init ([0x0D, 0x0A, 0x41, 0x54, 0x2B, 0x43, 0x4D, 0x47, 0x53, 0x3D, 0x0D] ++
        List.replicate 384 0x46)).1.scratchpad_index := by
  obtain ⟨_, _, h3, h4, _, h6⟩ := feed_hex_pairs 192 (List.replicate 384 0x46)
    (feed init [0x0D, 0x0A, 0x41, 0x54, 0x2B, 0x43, 0x4D, 0x47, 0x53, 0x3D, 0x0D]).1
    cmgs_entered.1 cmgs_entered.2.1 (by rw [cmgs_entered.2.2])
    ((feed_scratchpad_length _ init).trans rfl) (List.length_replicate 384 0x46)
    (mem_replicate_plain 384 0x46 (by decide) (by decide))
  rw [cmgs_entered.2.2] at h3 h6
  simp only [Nat.zero_add] at h3 h6
  have hF : ∀ i, i < 384 → (List.replicate 384 0x46).getD i 0 = 0x46 :=
    fun i hi => getD_replicate 384 0x46 i hi
  have hbyte : ∀ i, i < 192 →
      (feed (feed init [0x0D, 0x0A, 0x41, 0x54, 0x2B, 0x43, 0x4D, 0x47, 0x53, 0x3D, 0x0D]).1
        (List.replicate 384 0x46)).1.scratchpad.getD i 0 = 255 := by
    intro i hi
    rw [h6 i hi, hF _ (by omega), hF _ (by omega)]
    decide
  rw [feed_append]
  simp only
  refine ⟨h4, h3, ?_⟩
  rw [h3]
  have hm : message_index
      (feed (feed init [0x0D, 0x0A, 0x41, 0x54, 0x2B, 0x43, 0x4D, 0x47, 0x53, 0x3D, 0x0D]).1
        (List.replicate 384 0x46)).1.scratchpad = 135 := by
    unfold message_index
    rw [hbyte 3 (by omega)]
    decide
  unfold handle_fetches
  rw [hm, hbyte 135 (by omega)]
  decide

/-- C20: in every reachable engine state every countdown is at most 16; after 17 ticks
every LED 1..24 has exactly its target color, which is the target color it had before
the ticks, and its countdown is zero; and any number of further ticks leaves the whole
engine (color array and descriptors) as it is after the 17th. -/
theorem C20_convergence (e : Fade) (h : Reachable e) :
    (∀ c, c < 24 → (e.targets.getD c default).fade_delay ≤ 16) ∧
    (∀ i, 1 ≤ i → i ≤ 24 →
      (ticks 17 e).leds.getD i default = ((ticks 17 e).targets.getD (i - 1) default).leds ∧
      ((ticks 17 e).targets.getD (i - 1) default).leds =
        (e.targets.getD (i - 1) default).leds ∧
      ((ticks 17 e).targets.getD (i - 1) default).fade_delay = 0) ∧
    (∀ j, ticks (17 + j) e = ticks 17 e) := by
  obtain ⟨hl, ht, hf⟩ := reachable_inv e h
  have key : ∀ c, c < 24 →
      (ticks 17 e).leds.getD (c + 1) default = (e.targets.getD c default).leds ∧
      ((ticks 17 e).targets.getD c default).fade_delay = 0 ∧
      ((ticks 17 e).targets.getD c default).leds = (e.targets.getD c default).leds := by
    intro c hc
    have hp := ticks_led 17 e hl ht c hc
    have hd := tick_led_iter_done 17 (e.targets.getD c default) (e.leds.getD (c + 1) default)
      (by have := hf c hc; omega)
    have h1 := congrArg Prod.fst hp
    have h2 := congrArg Prod.snd hp
    simp only at h1 h2
    exact ⟨h2.trans hd.1, by rw [h1]; exact hd.2.1, by rw [h1]; exact hd.2.2⟩
  have hlen := ticks_length 17 e hl ht
  refine ⟨hf, ?_, ?_⟩
  · intro i h1 h2
    have := key (i - 1) (by omega)
    rw [show i - 1 + 1 = i by omega] at this
    exact ⟨by rw [this.1, this.2.2], this.2.2, this.2.1⟩
  · have hfix : user_service (ticks 17 e) = ticks 17 e :=
      user_service_settled _ hlen.1 hlen.2
        (fun c hc => ⟨(key c hc).2.1, by rw [(key c hc).1, (key c hc).2.2]⟩)
    intro j
    induction j with
    | zero => rfl
    | succ j ih =>
      rw [show 17 + (j + 1) = (17 + j) + 1 by omega, ticks_succ, ih, hfix]

/-- C20 witness: the state after the first rainbow color has been staged and applied to
LED 1. -/
theorem C20_convergence_witness :
    ticks (17 + 3) (set_target 1 { init.fade with leds := init.fade.leds.set 0 ⟨0, 253, 3⟩ }) =
      ticks 17 (set_target 1 { init.fade with leds := init.fade.leds.set 0 ⟨0, 253, 3⟩ }) :=
  (C20_convergence _ (Reachable.target _ 1 (Reachable.stage _ ⟨0, 253, 3⟩ Reachable.start))).2.2 3

/-- C13: with the transmitter idle (`bit_position = 0`, `byte_count = 0`), the array
`leds[]` held fixed and the path started as `user_service` starts it, 576 invocations
of `isr` write exactly the codes of the 576 bits of slots 1..24: code `k` is the long
code 0xFF when bit `7 - k mod 8` of byte `k / 8` of slots 1..24 (bytes g, r, b per LED)
is set and the short code 0xF0 otherwise. The 577th invocation writes nothing, clears
GIE and leaves `bit_position = 0`, `byte_count = 0`; hence any larger number of
invocations writes the same 576 codes. The codes depend on slots 1..24 only. -/
theorem C13_strip_transmission (leds : List ws_led_struct) (s : Strip)
    (hl : leds.length = 25) (hb : s.bit_position = 0) (hc : s.byte_count = 0) :
    (pulses 576 (led_bytes leds) (strip_start s)).2 =
      (List.range 576).map
        (fun k => pulse_code (((led_bytes leds.tail).getD (k / 8) 0).testBit (7 - k % 8))) ∧
    (pulses 576 (led_bytes leds) (strip_start s)).2.length = 576 ∧
    (isr (led_bytes leds) (pulses 576 (led_bytes leds) (strip_start s)).1).2 = none ∧
    (isr (led_bytes leds) (pulses 576 (led_bytes leds) (strip_start s)).1).1.GIE = false ∧
    (isr (led_bytes leds) (pulses 576 (led_bytes leds) (strip_start s)).1).1.bit_position = 0 ∧
    (isr (led_bytes leds) (pulses 576 (led_bytes leds) (strip_start s)).1).1.byte_count = 0 ∧
    (∀ n, 577 ≤ n →
      (pulses n (led_bytes leds) (strip_start s)).2 =
        (pulses 576 (led_bytes leds) (strip_start s)).2 ∧
      (pulses n (led_bytes leds) (strip_start s)).1.GIE = false) := by
  obtain ⟨a1, a2, a3, a4, a5, a6⟩ := pulses_bytes (led_bytes leds) 72 (strip_start s)
    hb (by simp only [strip_start, hc]; omega) rfl rfl
  rw [show 8 * 72 = 576 by norm_num] at a1 a2 a3 a4 a5 a6
  have hstop := isr_stop (led_bytes leds) (pulses 576 (led_bytes leds) (strip_start s)).1 a6 a2
    (by rw [a3]; simp only [strip_start, hc])
  have hcodes : (pulses 576 (led_bytes leds) (strip_start s)).2 =
      (List.range 576).map
        (fun k => pulse_code (((led_bytes leds.tail).getD (k / 8) 0).testBit (7 - k % 8))) := by
    rw [a1]
    apply List.map_congr_left
    intro k _
    cases leds with
    | nil => simp at hl
    | cons l ls =>
      simp only [strip_start, List.tail_cons]
      rw [getD_led_bytes_tail]
  refine ⟨hcodes, by rw [hcodes]; simp, by rw [hstop], by rw [hstop], ?_, by rw [hstop], ?_⟩
  · rw [hstop]; exact a2
  · intro n hn
    obtain ⟨m, rfl⟩ : ∃ m, n = 576 + (m + 1) := ⟨n - 577, by omega⟩
    rw [pulses_add]
    simp only
    rw [pulses_none m _ _ a5 a6 (by rw [hstop]),
      pulses_disabled m _ _ (by rw [hstop])]
    simp only [List.append_nil, true_and]
    rw [hstop]

/-- C13 witness: the zeroed transmitter and the zeroed LED array. -/
theorem C13_strip_transmission_witness :
    (pulses 576 (led_bytes init.fade.leds) (strip_start ⟨0, 0, 0, 0, false, false⟩)).2.length =
      576 :=
  (C13_strip_transmission init.fade.leds ⟨0, 0, 0, 0, false, false⟩ rfl rfl rfl).2.1

/-- C14: for every behaviour of the USB stack and the timer over any number of passes
of the main loop, every keystroke was fetched with `toPC_count = 0`, every buffer handed
to the USB stack and the reply pending at the end have at most 20 bytes; a single byte
appends at most 20 bytes in any machine state, and `AT+CPIN?` terminated by CR appends
exactly 20. The model of the `while` loop runs to the loop's own exit: a pending reply
or `read_index >= fromPC_count`. -/
theorem C14_outbound_bound (us : List Usb) :
    (∀ x ∈ (main_run us).pending, x = 0) ∧
    (∀ b ∈ (main_run us).sent, b.length ≤ 20) ∧
    (main_run us).m.toPC.length ≤ 20 ∧
    (∀ (m : Machine) (key : Nat), (step m key).toPC.length ≤ m.toPC.length + 20) ∧
    (step (feed init [0x0D, 0x0A, 0x41, 0x54, 0x2B, 0x43, 0x50, 0x49, 0x4E, 0x3F]).1
      0x0D).toPC.length = 20 ∧
    (main_run us).fromPC_count < 256 ∧
    (∀ L : Loop, L.fromPC_count < 256 →
      (parse_pending L).m.toPC.length ≠ 0 ∨
        ¬ ((parse_pending L).read_index < (parse_pending L).fromPC_count)) := by
  obtain ⟨i1, i2, i3⟩ := main_run_inv us main_start main_start_inv
  exact ⟨i1, i2, i3, step_toPC_le, by decide, main_run_count us main_start (by decide),
    fun L h => parse_loop_done _ L h (Nat.le_refl _)⟩

end Miksms
